import Mathlib

/-!
# qan-api2 (bo-er/qan-test): database bootstrap, retention pruner and process lifecycle

A shallow embedding of `db.go` and `main.go`.

* Go strings are sequences of bytes; they are modelled as `List Char`.
* Calls into the database, the migration library, the network and the Go runtime are
  modelled by explicit outcome parameters (which call failed, what it returned), so that
  every path of the source is a path of the model.
* Goroutines are modelled by an explicit scheduler: a list of actions chooses which
  goroutine takes its next step.
-/

namespace QanApi

/-! ## `db.go`: the struct-tag mapping function installed by `NewDB` (lines 32-37) -/

/-- Go `strings.Contains(s, sep)` for a one-byte separator. -/
def Contains (s : List Char) (sep : Char) : Bool :=
  s.elem sep

/-- Go `strings.Split(s, sep)` for a one-byte separator: the pieces of `s` between the
occurrences of `sep`; the result always has at least one piece. -/
def Split : List Char → Char → List (List Char)
  | [], _ => [[]]
  | c :: cs, sep =>
    if c = sep then [] :: Split cs sep
    else
      match Split cs sep with
      | [] => [[c]]
      | piece :: pieces => (c :: piece) :: pieces

/-- The anonymous function passed as tag mapper to `reflectx.NewMapperTagFunc` in `NewDB`:
`if strings.Contains(value, ",") { return strings.Split(value, ",")[0] }; return value`. -/
def tagMapFunc (value : List Char) : List Char :=
  if Contains value ',' then
    match Split value ',' with
    | [] => []
    | first :: _ => first
  else value

/-! ## `db.go`: `DropOldPartition` (lines 117-138)

The statement sent by `db.Select` is
`SELECT DISTINCT partition FROM system.parts
 WHERE toUInt32(partition) < toYYYYMMDD(now() - toIntervalDay(?)) ORDER BY partition`.
Its meaning is modelled on the proleptic Gregorian calendar, without the range limit of the
store's date type. A row of `system.parts` holds the number `toUInt32(partition)`; the text
of the column `partition` is the decimal text of that number, one text per number. The
condition of the `WHERE` compares the numbers; `DISTINCT` and `ORDER BY partition` act on
the text, compared byte by byte, over the parts of every table. -/

/-- A calendar date. -/
structure Date where
  year : Int
  month : Nat
  day : Nat
deriving DecidableEq, Repr

/-- Gregorian leap-year rule. -/
def isLeapYear (y : Int) : Bool :=
  (y % 4 == 0 && y % 100 != 0) || y % 400 == 0

/-- Number of days of month `m` of year `y`. -/
def daysInMonth (y : Int) (m : Nat) : Nat :=
  if m = 2 then (if isLeapYear y then 29 else 28)
  else if m = 4 ∨ m = 6 ∨ m = 9 ∨ m = 11 then 30
  else 31

/-- The date exists in the calendar. -/
def Date.valid (d : Date) : Prop :=
  1 ≤ d.month ∧ d.month ≤ 12 ∧ 1 ≤ d.day ∧ d.day ≤ daysInMonth d.year d.month

instance (d : Date) : Decidable d.valid := by
  unfold Date.valid; infer_instance

/-- The day before `d`. -/
def Date.prev (d : Date) : Date :=
  if 1 < d.day then { d with day := d.day - 1 }
  else if 1 < d.month then
    { d with month := d.month - 1, day := daysInMonth d.year (d.month - 1) }
  else { year := d.year - 1, month := 12, day := 31 }

/-- The date `d - toIntervalDay(n)`: `n` whole days before `d`. -/
def Date.subDays (d : Date) : Nat → Date
  | 0 => d
  | n + 1 => (d.subDays n).prev

/-- The store's `toYYYYMMDD`: the number `year * 10000 + month * 100 + day`. -/
def toYYYYMMDD (d : Date) : Int :=
  d.year * 10000 + d.month * 100 + d.day

/-- Numeric value of the `partition` column, `toUInt32(partition)`. -/
abbrev Partition := Int

/-- One row of `system.parts`: a stored data part, with the table it belongs to and its
partition. A partition of a table is stored as long as one of its parts is. -/
structure Part where
  table : String
  partition : Partition
deriving DecidableEq, Repr

/-- The store, as far as the pruner sees it: the rows of `system.parts`. -/
structure DB where
  parts : List Part
deriving DecidableEq, Repr

/-- Statements sent through `db.Exec`: `ALTER TABLE <table> DROP PARTITION <part>`. -/
inductive Stmt
  | dropPartition (table : String) (part : Partition)
deriving DecidableEq, Repr

/-- What one sweep does, in program order. -/
inductive Event
  /-- Line 125: `db.Select(&partitions, query, days)`. -/
  | select (days : Nat)
  /-- Line 131: the listing failed and the failure is logged. -/
  | logSelectError (days : Nat)
  /-- Line 135: `db.Exec(...)` of a statement. -/
  | exec (q : Stmt)
  /-- Line 136: the result of the drop of `part` is logged; `failed` tells whether
  `db.Exec` returned an error. -/
  | logDrop (part : Partition) (failed : Bool)
deriving DecidableEq, Repr

/-- Which database calls of one sweep fail: the listing, and the drop of each partition. -/
structure DBOutcome where
  selectErr : Bool
  execErr : Partition → Bool

/-- The decimal digits of `n` as bytes (`48` is the digit `0`), most significant first, put
before `acc`; `fuel` bounds the number of digits. -/
def decimalBytes : Nat → Nat → List Nat → List Nat
  | 0, _, acc => acc
  | fuel + 1, n, acc =>
    if n < 10 then (48 + n) :: acc
    else decimalBytes fuel (n / 10) ((48 + n % 10) :: acc)

/-- The decimal text of a natural number, as bytes. -/
def natText (n : Nat) : List Nat :=
  decimalBytes (n + 1) n []

/-- The text of the column `partition` for the number `p`, as bytes (`45` is the sign). -/
def partitionText (p : Partition) : List Nat :=
  if p < 0 then 45 :: natText p.natAbs else natText p.toNat

/-- The order of the store on texts: byte by byte, a proper start of a text before the
text. -/
def textLE : List Nat → List Nat → Bool
  | [], _ => true
  | _ :: _, [] => false
  | a :: x, b :: y => decide (a < b) || (a == b && textLE x y)

/-- The order of `ORDER BY partition`: the text of `a` is not after the text of `b`. -/
def textOrder (a b : Partition) : Prop :=
  textLE (partitionText a) (partitionText b) = true

instance : DecidableRel textOrder := fun a b => by
  unfold textOrder; infer_instance

/-- The text of `a` is strictly before the text of `b`. -/
def textBefore (a b : Partition) : Prop :=
  textOrder a b ∧ partitionText a ≠ partitionText b

/-- The number a text of decimal digits stands for. -/
def textValue : List Nat → Nat
  | [] => 0
  | b :: rest => (b - 48) * 10 ^ rest.length + textValue rest

/-- The rows the query of line 120-124 returns on the given `system.parts`: the partitions
of the parts of every table whose number is below the key of `now - days`, one row per
text (`DISTINCT`), in the order of the texts (`ORDER BY partition`). -/
def selectOldPartitions (parts : List Part) (now : Date) (days : Nat) : List Partition :=
  (((parts.map (fun r => r.partition)).filter
    (fun p => p < toYYYYMMDD (now.subDays days))).pwFilter
      (fun a b => partitionText a ≠ partitionText b)).insertionSort textOrder

/-- The `db.Select` call of line 125: `none` when it returns an error, else the listing. -/
def Select (selectErr : Bool) (db : DB) (now : Date) (days : Nat) : Option (List Partition) :=
  if selectErr then none else some (selectOldPartitions db.parts now days)

/-- The `db.Exec` call of line 135: a statement that fails changes nothing, a drop that
succeeds removes every part of that partition of that table. -/
def Exec (db : DB) (q : Stmt) (failed : Bool) : DB :=
  if failed then db
  else
    match q with
    | Stmt.dropPartition table part =>
      { parts := db.parts.filter (fun r => !(r.table == table && r.partition == part)) }

/-- The loop of lines 134-137 over the listed partitions: one `Exec` and one log line per
element, whatever the result of the `Exec`. -/
def dropLoop (execErr : Partition → Bool) : List Partition → DB → DB × List Event
  | [], db => (db, [])
  | part :: rest, db =>
    let q := Stmt.dropPartition "metrics" part
    let failed := execErr part
    let r := dropLoop execErr rest (Exec db q failed)
    (r.1, Event.exec q :: Event.logDrop part failed :: r.2)

/-- `DropOldPartition(db, days)` run at date `now`: the store it leaves and what it did. -/
def DropOldPartition (out : DBOutcome) (db : DB) (now : Date) (days : Nat) :
    DB × List Event :=
  match Select out.selectErr db now days with
  | none => (db, [Event.select days, Event.logSelectError days])
  | some partitions =>
    let r := dropLoop out.execErr partitions db
    (r.1, Event.select days :: r.2)

/-- The statements a sweep sent through `db.Exec`, in order. -/
def execStmts : List Event → List Stmt
  | [] => []
  | Event.exec q :: rest => q :: execStmts rest
  | _ :: rest => execStmts rest

/-- The partitions the drop statements of a sweep name, in order. -/
def droppedKeys (evs : List Event) : List Partition :=
  (execStmts evs).map (fun q => match q with | Stmt.dropPartition _ part => part)

/-! ## `db.go`: `runMigrations` (lines 78-96) and `NewDB` (lines 25-48) -/

/-- A Go `error` value, as far as the program tells errors apart: `migrate.ErrNoChange`,
or any other error with its message. -/
inductive GoError
  | ErrNoChange
  | other (msg : String)
deriving DecidableEq, Repr

/-- The text `err.Error()` of an error. -/
def GoError.Error : GoError → String
  | GoError.ErrNoChange => "no change"
  | GoError.other msg => msg

/-- Apply `n` migration scripts in order, starting after version `v`: a script that fails
stops the run at the version reached and its error is the result. Part of the model of
the migrator below. -/
def applyScripts (scriptErr : Nat → Option String) : Nat → Nat → Nat × Option GoError
  | 0, v => (v, none)
  | n + 1, v =>
    match scriptErr (v + 1) with
    | some msg => (v, some (GoError.other msg))
    | none => applyScripts scriptErr n (v + 1)

/-- Modelled from the spec: the migrator of the library `golang-migrate` is not part of the
sources. Per the spec it holds an ordered, versioned set of embedded migration scripts,
here the versions `1 .. latest`, each applied exactly once and tracked by a persisted
version marker; `Up` applies the scripts above the marker `v` in order and reports
`ErrNoChange` when none is pending. The result is the new marker and the error of `Up`. -/
def Migrator.Up (latest : Nat) (scriptErr : Nat → Option String) (v : Nat) :
    Nat × Option GoError :=
  if latest ≤ v then (v, some GoError.ErrNoChange)
  else applyScripts scriptErr (latest - v) v

/-- Outcomes of the library calls of `runMigrations`: the error of `bindata.WithInstance`,
the error of `migrate.NewWithSourceInstance`, and the migrator `m.Up`, a function of
the persisted schema version giving the new version and the error returned. -/
structure MigrateOutcome where
  withInstanceErr : Option String
  newInstanceErr : Option String
  up : Nat → Nat × Option GoError

/-- `runMigrations(instance, dsn)` on a store whose schema is at `version`: the schema
version it leaves and the error it returns (`none` is `nil`). -/
def runMigrations (o : MigrateOutcome) (version : Nat) : Nat × Option GoError :=
  match o.withInstanceErr with
  | some msg => (version, some (GoError.other msg))
  | none =>
    match o.newInstanceErr with
    | some msg => (version, some (GoError.other msg))
    | none =>
      let r := o.up version
      if r.2 = some GoError.ErrNoChange then (r.1, none) else (r.1, r.2)

/-- Outcomes of the calls of `NewDB`: the error of `sqlx.Connect` and the outcomes of
`runMigrations`. -/
structure StartOutcome where
  connectErr : Option String
  migrate : MigrateOutcome

/-- `NewDB(dsn, maxIdleConns, maxOpenConns)`: `Except.error msg` when the process is
aborted by `log.Fatalf` / `log.Fatal` with that message, else the database handle, here
the schema version the store is left at. -/
def NewDB (o : StartOutcome) (version : Nat) : Except String Nat :=
  match o.connectErr with
  | some msg => Except.error msg
  | none =>
    match runMigrations o.migrate version with
    | (_, some err) => Except.error ("Migrations: " ++ err.Error)
    | (v, none) => Except.ok v

/-! ## `main.go`: start-up of `main` (lines 284-351) -/

/-- The goroutines `main` starts, in the order of the `go` statements. -/
inductive Task
  | signalHandler
  | ingestion
  | grpcServer
  | jsonServer
  | debugServer
  | client
  | pruner
deriving DecidableEq, Repr

/-- What `main` does from line 284 on. -/
inductive MainEvent
  /-- The process is aborted inside `NewDB`. -/
  | fatal (msg : String)
  /-- A `go` statement. -/
  | go (t : Task)
  /-- Line 351: `wg.Wait()`. -/
  | wait
deriving DecidableEq, Repr

/-- `main` from the call of `NewDB` (line 284) to `wg.Wait()` (line 351). -/
def main (o : StartOutcome) (version : Nat) : List MainEvent :=
  match NewDB o version with
  | Except.error msg => [MainEvent.fatal msg]
  | Except.ok _ =>
    [MainEvent.go Task.signalHandler, MainEvent.go Task.ingestion,
     MainEvent.go Task.grpcServer, MainEvent.go Task.jsonServer,
     MainEvent.go Task.debugServer, MainEvent.go Task.client,
     MainEvent.go Task.pruner, MainEvent.wait]

/-! ## `main.go`: the retention pruner loop (lines 336-350) -/

/-- Which case of the `select` of lines 343-348 fires. -/
inductive Wake
  | tick
  | done
deriving DecidableEq, Repr

/-- The goroutine of lines 338-350. `sweep days` is the call `DropOldPartition(db, days)`
as a change of the state of the world, `wakes` the cases of the `select` that fire, in
order. The result is the state reached and whether the goroutine has returned; it has
not when it is blocked in the `select` with no further wake. -/
def prunerLoop {σ : Type} (sweep : Nat → σ → σ) (days : Nat) : List Wake → σ → σ × Bool
  | [], s => (sweep days s, false)
  | Wake.done :: _, s => (sweep days s, true)
  | Wake.tick :: rest, s => prunerLoop sweep days rest (sweep days s)

/-- State of the world of the pruner: the store, what the sweeps did so far, and the
number of sweeps run. -/
structure PrunerState where
  db : DB
  trace : List Event
  sweeps : Nat
deriving DecidableEq, Repr

/-- The call `DropOldPartition(db, days)` as a change of the state of the world: the sweep
number `k` (from 0) runs at date `clock k` with the outcomes `outs k`. -/
def storeSweep (outs : Nat → DBOutcome) (clock : Nat → Date) (days : Nat)
    (s : PrunerState) : PrunerState :=
  { db := (DropOldPartition (outs s.sweeps) s.db (clock s.sweeps) days).1,
    trace := s.trace ++ (DropOldPartition (outs s.sweeps) s.db (clock s.sweeps) days).2,
    sweeps := s.sweeps + 1 }

/-- The horizons of the listings in a trace, in order: one per sweep. -/
def listingHorizons : List Event → List Nat
  | [] => []
  | Event.select days :: rest => days :: listingHorizons rest
  | _ :: rest => listingHorizons rest

/-! ## `main.go`: the serve tasks of the three listeners (lines 96-105, 147-152, 208-213) -/

/-- The three listeners of the process. -/
inductive Listener
  | grpc
  | json
  | debug
deriving DecidableEq, Repr

/-- The value one call of `grpcServer.Serve(lis)` / `server.ListenAndServe()` returns:
`nil`, the error that tells that the server was stopped (`grpc.ErrServerStopped`,
`http.ErrServerClosed`), or any other error. -/
inductive ServeResult
  | nil
  | stopped
  | failed (msg : String)
deriving DecidableEq, Repr

/-- What a serve task does, in program order. -/
inductive ServeEvent
  /-- A call of `Serve` / `ListenAndServe`. -/
  | serve
  /-- The gRPC task logs `Failed to serve`, line 102. -/
  | logError (msg : String)
  /-- An HTTP task logs the value and panics, lines 149 and 210. -/
  | logPanic (r : ServeResult)
  /-- The task logs `Server stopped.` and ends. -/
  | logStopped
deriving DecidableEq, Repr

/-- The goroutine of lines 96-105 of `runGRPCServer`, given the values the successive
calls of `Serve` return; with no further value the task is inside `Serve`. -/
def runGRPCServer.serve : List ServeResult → List ServeEvent
  | [] => [ServeEvent.serve]
  | ServeResult.nil :: _ => [ServeEvent.serve, ServeEvent.logStopped]
  | ServeResult.stopped :: _ => [ServeEvent.serve, ServeEvent.logStopped]
  | ServeResult.failed msg :: rest =>
    ServeEvent.serve :: ServeEvent.logError msg :: runGRPCServer.serve rest

/-- The goroutine of lines 147-152 of `runJSONServer`: one call of `ListenAndServe`, a
panic on every value other than `http.ErrServerClosed`. -/
def runJSONServer.serve : List ServeResult → List ServeEvent
  | [] => [ServeEvent.serve]
  | ServeResult.stopped :: _ => [ServeEvent.serve, ServeEvent.logStopped]
  | r :: _ => [ServeEvent.serve, ServeEvent.logPanic r]

/-- The goroutine of lines 208-213 of `runDebugServer`: one call of `ListenAndServe`, a
panic on every value other than `http.ErrServerClosed`. -/
def runDebugServer.serve : List ServeResult → List ServeEvent
  | [] => [ServeEvent.serve]
  | ServeResult.stopped :: _ => [ServeEvent.serve, ServeEvent.logStopped]
  | r :: _ => [ServeEvent.serve, ServeEvent.logPanic r]

/-- The serve task of a listener. -/
def serveTask : Listener → List ServeResult → List ServeEvent
  | Listener.grpc, rs => runGRPCServer.serve rs
  | Listener.json, rs => runJSONServer.serve rs
  | Listener.debug, rs => runDebugServer.serve rs

/-- Number of calls of `Serve` / `ListenAndServe` in a trace. -/
def serveCalls (evs : List ServeEvent) : Nat :=
  evs.count ServeEvent.serve

/-! ## `main.go`: the shutdown sequences of the three listeners
(lines 107-116, 154-160, 215-220)

Time is counted in milliseconds from the moment the listener observes the root
cancellation. -/

/-- The constant `shutdownTimeout = 3 * time.Second`, in milliseconds. -/
def shutdownTimeout : Nat := 3000

/-- When the work in flight at the start of the shutdown finishes: after so many
milliseconds, or `none` for never. -/
abbrev Inflight := Option Nat

/-- The work in flight is over before the grace period expires. -/
def finishesInGrace : Inflight → Bool
  | some ms => decide (ms < shutdownTimeout)
  | none => false

/-- What a shutdown sequence does, in program order. -/
inductive StopEvent
  /-- The call `grpcServer.GracefulStop()` starts and waits for the work in flight. -/
  | gracefulStop
  /-- The call `server.Shutdown(ctx)` starts and waits for the work in flight. -/
  | shutdown
  /-- The context of `shutdownTimeout` expires. -/
  | graceExpired
  /-- The call `grpcServer.Stop()`: connections are closed by force. -/
  | stop
  /-- The call `server.Close()`: connections are closed by force. -/
  | close
  /-- The log line `Failed to shutdown gracefully`. -/
  | logShutdownError
  /-- The call `cancel()` of the context of `shutdownTimeout`. -/
  | cancel
deriving DecidableEq, Repr

/-- A server at the start of its shutdown, as far as the shutdown is concerned: whether
connections with work in flight are open. -/
structure Server where
  connectionsOpen : Bool
deriving DecidableEq, Repr

/-- Library call `server.Shutdown(ctx)` with the context of `shutdownTimeout`: it waits for
the work in flight; when that is over within the grace period it returns `nil` (`false`)
with no connection left, else it returns the error of the context (`true`) when the grace
period expires and leaves the connections as they are. -/
def Server.Shutdown (srv : Server) (w : Inflight) : Server × Bool :=
  if finishesInGrace w then ({ connectionsOpen := false }, false) else (srv, true)

/-- Library calls `server.Close()` and `grpcServer.Stop()`: every connection is closed. -/
def Server.Close (_srv : Server) : Server :=
  { connectionsOpen := false }

/-- Result of a shutdown sequence: what it did, and whether connections with work in
flight are still open when the function returns. -/
structure StopResult where
  events : List StopEvent
  connectionsOpen : Bool
deriving DecidableEq, Repr

/-- Lines 107-116 of `runGRPCServer` after `<-ctx.Done()`, on a server with work in flight:
`GracefulStop` (line 115) returns when no connection is left; the goroutine of lines
111-114 calls `Stop` when the context of `shutdownTimeout` is done, by expiry or by the
`cancel()` of line 116. -/
def runGRPCServer.shutdown (w : Inflight) : StopResult :=
  let srv : Server := { connectionsOpen := true }
  if finishesInGrace w then
    { events := [StopEvent.gracefulStop, StopEvent.cancel, StopEvent.stop],
      connectionsOpen := false }
  else
    { events := [StopEvent.gracefulStop, StopEvent.graceExpired, StopEvent.stop,
        StopEvent.cancel],
      connectionsOpen := srv.Close.connectionsOpen }

/-- Lines 154-160 of `runJSONServer` after `<-ctx.Done()`, on a server with work in flight:
`if err := server.Shutdown(ctx); err != nil { l.Errorf(...); server.Close() }; cancel()`. -/
def runJSONServer.shutdown (w : Inflight) : StopResult :=
  let srv : Server := { connectionsOpen := true }
  let r := srv.Shutdown w
  if r.2 then
    { events := [StopEvent.shutdown, StopEvent.graceExpired, StopEvent.logShutdownError,
        StopEvent.close, StopEvent.cancel],
      connectionsOpen := r.1.Close.connectionsOpen }
  else
    { events := [StopEvent.shutdown, StopEvent.cancel], connectionsOpen := r.1.connectionsOpen }

/-- Lines 215-220 of `runDebugServer` after `<-ctx.Done()`, on a server with work in
flight: `if err := server.Shutdown(ctx); err != nil { l.Errorf(...) }; cancel()`. -/
def runDebugServer.shutdown (w : Inflight) : StopResult :=
  let srv : Server := { connectionsOpen := true }
  let r := srv.Shutdown w
  if r.2 then
    { events := [StopEvent.shutdown, StopEvent.graceExpired, StopEvent.logShutdownError,
        StopEvent.cancel],
      connectionsOpen := r.1.connectionsOpen }
  else
    { events := [StopEvent.shutdown, StopEvent.cancel], connectionsOpen := r.1.connectionsOpen }

/-- The shutdown sequence of a listener. -/
def listenerShutdown : Listener → Inflight → StopResult
  | Listener.grpc, w => runGRPCServer.shutdown w
  | Listener.json, w => runJSONServer.shutdown w
  | Listener.debug, w => runDebugServer.shutdown w

/-- The listener was closed by force: `grpcServer.Stop()` or `server.Close()` ran after
the grace period expired. -/
def forceClosed (r : StopResult) : Bool :=
  r.events.contains StopEvent.graceExpired &&
    (r.events.contains StopEvent.stop || r.events.contains StopEvent.close)

/-! ## `main.go`: shutdown ordering of `main` (lines 272-316) and `runGRPCServer`

The goroutines that take part in the shutdown of the gRPC server and of the ingestion
are run by an explicit scheduler: an execution is a list of actions, each a step of one
goroutine or an event of the environment; an action that is not enabled leaves the
state unchanged. The body of `runGRPCServer` ends by returning or by ending the process
(`l.Fatalf`); a panic raised inside it is not part of the model. -/

/-- The termination signals `main` subscribes to (line 288). -/
inductive Signal
  | SIGTERM
  | SIGINT
deriving DecidableEq, Repr

/-- The goroutine of lines 289-294: blocked on `<-signals`, holding a signal, or past
`cancel()`. -/
inductive HandlerPC
  | waiting
  | received (sig : Signal)
  | done
deriving DecidableEq, Repr

/-- The goroutine of lines 309-316: before `net.Listen`; blocked on `<-ctx.Done()`
(line 107); inside `grpcServer.GracefulStop()` (line 115); `runGRPCServer` has returned
and the deferred function is about to run; the deferred function has run. -/
inductive GrpcPC
  | starting
  | serving
  | stopping
  | returned
  | done
deriving DecidableEq, Repr

/-- The goroutine of lines 111-114: not started; blocked on the `Done` of the context of
`shutdownTimeout`; past `grpcServer.Stop()`. -/
inductive HelperPC
  | notStarted
  | waiting
  | done
deriving DecidableEq, Repr

/-- The goroutine of lines 303-306: inside `mbm.Run(mbmCtx)`, or returned from it. -/
inductive IngestPC
  | running
  | returned
deriving DecidableEq, Repr

/-- The observable events of an execution. -/
inductive LifeEvent
  | signalReceived (sig : Signal)
  /-- The root `cancel()` of line 293. -/
  | rootCancel
  | grpcListening
  /-- The call `grpcServer.GracefulStop()`, line 115. -/
  | grpcGracefulStop
  /-- The call `grpcServer.Stop()`, line 113. -/
  | grpcStop
  /-- The call `GracefulStop` has returned: the RPC server is fully stopped. -/
  | grpcServerStopped
  /-- The call `runGRPCServer` of line 315 has returned. -/
  | grpcReturned
  /-- The call `mbmCancel()` of line 312. -/
  | mbmCancel
  /-- The call `mbm.Run(mbmCtx)` has returned. -/
  | ingestionReturned
  /-- The process exits without running deferred functions. -/
  | exit
deriving DecidableEq, Repr

/-- State of an execution of `main`. -/
structure State where
  /-- The process has exited. -/
  exited : Bool
  /-- The root context `ctx` is cancelled. -/
  ctxDone : Bool
  handler : HandlerPC
  grpc : GrpcPC
  /-- RPCs are in flight on the gRPC server. -/
  inflight : Bool
  /-- The context of `shutdownTimeout` of line 110 is done. -/
  stopCtxDone : Bool
  helper : HelperPC
  /-- The context `mbmCtx` of the ingestion is cancelled. -/
  mbmCtxDone : Bool
  ingestion : IngestPC
  trace : List LifeEvent
deriving DecidableEq, Repr

/-- The choices of the scheduler and of the environment. -/
inductive Action
  /-- The operating system delivers a termination signal. -/
  | signal (sig : Signal)
  /-- A step of the goroutine of lines 289-294. -/
  | handlerStep
  /-- A step of the goroutine of lines 309-316. -/
  | grpcStep
  /-- The call `net.Listen` of line 52 fails: `l.Fatalf` ends the process. -/
  | listenFails
  /-- An RPC arrives at the serving gRPC server. -/
  | rpcArrives
  /-- The RPCs in flight finish. -/
  | rpcsFinish
  /-- The deadline of the context of `shutdownTimeout` passes. -/
  | graceExpires
  /-- A step of the goroutine of lines 111-114. -/
  | helperStep
  /-- A step of the goroutine of lines 303-306. -/
  | ingestionStep
  /-- A step of any other goroutine (JSON, debug, client, pruner): these share only the
  root context with the ones above and have no access to `mbmCancel`. -/
  | otherStep
  /-- A fatal log call or a panic in another goroutine ends the process. -/
  | crash
deriving DecidableEq, Repr

/-- The state when `main` has started its goroutines. -/
def State.initial : State :=
  { exited := false, ctxDone := false, handler := HandlerPC.waiting,
    grpc := GrpcPC.starting, inflight := false, stopCtxDone := false,
    helper := HelperPC.notStarted, mbmCtxDone := false, ingestion := IngestPC.running,
    trace := [] }

/-- One step of the goroutine of lines 309-316. -/
def grpcStep (s : State) : State :=
  match s.grpc with
  | GrpcPC.starting =>
    { s with grpc := GrpcPC.serving, trace := s.trace ++ [LifeEvent.grpcListening] }
  | GrpcPC.serving =>
    if s.ctxDone then
      { s with grpc := GrpcPC.stopping, helper := HelperPC.waiting,
               trace := s.trace ++ [LifeEvent.grpcGracefulStop] }
    else s
  | GrpcPC.stopping =>
    if s.inflight then s
    else
      { s with grpc := GrpcPC.returned, stopCtxDone := true,
               trace := s.trace ++ [LifeEvent.grpcServerStopped, LifeEvent.grpcReturned] }
  | GrpcPC.returned =>
    { s with grpc := GrpcPC.done, mbmCtxDone := true,
             trace := s.trace ++ [LifeEvent.mbmCancel] }
  | GrpcPC.done => s

/-- One action of an execution. -/
def step (s : State) (a : Action) : State :=
  if s.exited then s
  else
    match a with
    | Action.signal sig =>
      match s.handler with
      | HandlerPC.waiting =>
        { s with handler := HandlerPC.received sig,
                 trace := s.trace ++ [LifeEvent.signalReceived sig] }
      | _ => s
    | Action.handlerStep =>
      match s.handler with
      | HandlerPC.received _ =>
        { s with handler := HandlerPC.done, ctxDone := true,
                 trace := s.trace ++ [LifeEvent.rootCancel] }
      | _ => s
    | Action.grpcStep => grpcStep s
    | Action.listenFails =>
      if s.grpc = GrpcPC.starting then
        { s with exited := true, trace := s.trace ++ [LifeEvent.exit] }
      else s
    | Action.rpcArrives =>
      if s.grpc = GrpcPC.serving then { s with inflight := true } else s
    | Action.rpcsFinish => { s with inflight := false }
    | Action.graceExpires =>
      if s.helper = HelperPC.waiting then { s with stopCtxDone := true } else s
    | Action.helperStep =>
      if s.helper = HelperPC.waiting ∧ s.stopCtxDone = true then
        { s with helper := HelperPC.done, inflight := false,
                 trace := s.trace ++ [LifeEvent.grpcStop] }
      else s
    | Action.ingestionStep =>
      if s.ingestion = IngestPC.running ∧ s.mbmCtxDone = true then
        { s with ingestion := IngestPC.returned,
                 trace := s.trace ++ [LifeEvent.ingestionReturned] }
      else s
    | Action.otherStep => s
    | Action.crash => { s with exited := true, trace := s.trace ++ [LifeEvent.exit] }

/-- The state an execution reaches from `s`. -/
def run (s : State) : List Action → State
  | [] => s
  | a :: rest => run (step s a) rest

/-- In a trace, every `mbmCancel` comes after the gRPC server has fully stopped and
`runGRPCServer` has returned. -/
def cancelAfterGrpcReturn (trace : List LifeEvent) : Prop :=
  ∀ before after : List LifeEvent, trace = before ++ LifeEvent.mbmCancel :: after →
    LifeEvent.grpcServerStopped ∈ before ∧ LifeEvent.grpcReturned ∈ before

/-- Invariant of the executions of `main`. -/
structure Inv (s : State) : Prop where
  ordered : cancelAfterGrpcReturn s.trace
  cancelled_done : s.mbmCtxDone = true → s.grpc = GrpcPC.done
  traced_done : LifeEvent.mbmCancel ∈ s.trace → s.grpc = GrpcPC.done
  returned_traced : s.grpc = GrpcPC.returned ∨ s.grpc = GrpcPC.done →
    LifeEvent.grpcServerStopped ∈ s.trace ∧ LifeEvent.grpcReturned ∈ s.trace

/-! ## Lemmas: calendar -/

theorem daysInMonth_le (y : Int) (m : Nat) : daysInMonth y m ≤ 31 := by
  unfold daysInMonth; split_ifs <;> omega

theorem daysInMonth_pos (y : Int) (m : Nat) : 1 ≤ daysInMonth y m := by
  unfold daysInMonth; split_ifs <;> omega

theorem Date.prev_valid (d : Date) (h : d.valid) : d.prev.valid := by
  obtain ⟨y, m, dd⟩ := d
  simp only [Date.valid] at h
  obtain ⟨h1, h2, h3, h4⟩ := h
  simp only [Date.prev, Date.valid]
  split_ifs with a b
  · simp only; omega
  · simp only
    exact ⟨by omega, by omega, daysInMonth_pos _ _, le_refl _⟩
  · simp [daysInMonth]

theorem Date.prev_lt (d : Date) (h : d.valid) : toYYYYMMDD d.prev < toYYYYMMDD d := by
  obtain ⟨y, m, dd⟩ := d
  simp only [Date.valid] at h
  obtain ⟨h1, h2, h3, h4⟩ := h
  have := daysInMonth_le y (m - 1)
  simp only [Date.prev, toYYYYMMDD]
  split_ifs with a b
  · simp only; omega
  · simp only; omega
  · simp only; omega

theorem Date.subDays_valid (d : Date) (h : d.valid) (n : Nat) : (d.subDays n).valid := by
  induction n with
  | zero => exact h
  | succ n ih => exact Date.prev_valid _ ih

theorem Date.subDays_add_lt (d : Date) (h : d.valid) (n k : Nat) :
    toYYYYMMDD (d.subDays (n + k + 1)) < toYYYYMMDD (d.subDays n) := by
  induction k with
  | zero => exact Date.prev_lt _ (Date.subDays_valid d h n)
  | succ k ih =>
    exact lt_trans (Date.prev_lt _ (Date.subDays_valid d h (n + k + 1))) ih

theorem Date.subDays_lt_of_lt (d : Date) (h : d.valid) {i j : Nat} (hij : i < j) :
    toYYYYMMDD (d.subDays j) < toYYYYMMDD (d.subDays i) := by
  obtain ⟨k, rfl⟩ : ∃ k, j = i + k + 1 := ⟨j - i - 1, by omega⟩
  exact Date.subDays_add_lt d h i k

theorem Date.subDays_le (d : Date) (h : d.valid) (n : Nat) :
    toYYYYMMDD (d.subDays n) ≤ toYYYYMMDD d := by
  cases n with
  | zero => exact le_refl _
  | succ n => exact le_of_lt (Date.subDays_lt_of_lt d h (Nat.succ_pos n))

/-! ## Lemmas: the text of a partition and the order of the texts -/

theorem textValue_decimalBytes (fuel n : Nat) (acc : List Nat) (h : n < 10 ^ fuel) :
    textValue (decimalBytes fuel n acc) = n * 10 ^ acc.length + textValue acc := by
  induction fuel generalizing n acc with
  | zero =>
    have : n = 0 := by simpa using h
    subst this
    simp [decimalBytes]
  | succ fuel ih =>
    unfold decimalBytes
    split_ifs with hn
    · simp [textValue]
    · have hlt : n / 10 < 10 ^ fuel := by
        rw [Nat.div_lt_iff_lt_mul (by decide)]
        rw [pow_succ] at h
        exact h
      rw [ih (n / 10) _ hlt]
      simp only [textValue, List.length_cons, Nat.add_sub_cancel_left, pow_succ]
      have h10 := Nat.div_add_mod n 10
      generalize 10 ^ acc.length = P
      have : n * P = (10 * (n / 10) + n % 10) * P := by rw [h10]
      rw [this]
      ring

theorem textValue_natText (n : Nat) : textValue (natText n) = n := by
  unfold natText
  rw [textValue_decimalBytes _ _ _ (lt_trans (Nat.lt_pow_self (by decide) n)
    (Nat.pow_lt_pow_right (by decide) (Nat.lt_succ_self n)))]
  simp [textValue]

theorem natText_injective {a b : Nat} (h : natText a = natText b) : a = b := by
  rw [← textValue_natText a, ← textValue_natText b, h]

theorem decimalBytes_bytes (fuel n : Nat) (acc : List Nat) :
    ∀ b ∈ decimalBytes fuel n acc, b ∈ acc ∨ (48 ≤ b ∧ b ≤ 57) := by
  induction fuel generalizing n acc with
  | zero => intro b hb; exact Or.inl hb
  | succ fuel ih =>
    intro b hb
    unfold decimalBytes at hb
    split_ifs at hb with hn
    · rcases List.mem_cons.mp hb with rfl | hb
      · exact Or.inr ⟨by omega, by omega⟩
      · exact Or.inl hb
    · rcases ih _ _ b hb with h1 | h1
      · rcases List.mem_cons.mp h1 with rfl | h2
        · exact Or.inr ⟨by omega, by omega⟩
        · exact Or.inl h2
      · exact Or.inr h1

theorem natText_bytes (n : Nat) : ∀ b ∈ natText n, 48 ≤ b ∧ b ≤ 57 := by
  intro b hb
  rcases decimalBytes_bytes _ _ _ b hb with h | h
  · cases h
  · exact h

theorem partitionText_injective {a b : Int} (h : partitionText a = partitionText b) :
    a = b := by
  unfold partitionText at h
  split_ifs at h with ha hb hb
  · have h1 := natText_injective (List.cons.inj h).2
    have h2 := Int.ofNat_natAbs_of_nonpos (le_of_lt ha)
    have h3 := Int.ofNat_natAbs_of_nonpos (le_of_lt hb)
    rw [h1] at h2
    omega
  · have h45 : 45 ∈ natText b.toNat := by rw [← h]; exact List.mem_cons_self _ _
    have := natText_bytes _ _ h45
    omega
  · have h45 : 45 ∈ natText a.toNat := by rw [h]; exact List.mem_cons_self _ _
    have := natText_bytes _ _ h45
    omega
  · have h1 := natText_injective h
    have h2 := Int.toNat_of_nonneg (not_lt.mp ha)
    have h3 := Int.toNat_of_nonneg (not_lt.mp hb)
    rw [h1] at h2
    omega

theorem textLE_total (x y : List Nat) : textLE x y = true ∨ textLE y x = true := by
  induction x generalizing y with
  | nil => exact Or.inl rfl
  | cons a x ih =>
    cases y with
    | nil => exact Or.inr rfl
    | cons b y =>
      simp only [textLE, Bool.or_eq_true, decide_eq_true_eq, Bool.and_eq_true, beq_iff_eq]
      rcases Nat.lt_trichotomy a b with h | h | h
      · exact Or.inl (Or.inl h)
      · rcases ih y with h2 | h2
        · exact Or.inl (Or.inr ⟨h, h2⟩)
        · exact Or.inr (Or.inr ⟨h.symm, h2⟩)
      · exact Or.inr (Or.inl h)

theorem textLE_trans (x y z : List Nat) (h1 : textLE x y = true) (h2 : textLE y z = true) :
    textLE x z = true := by
  induction x generalizing y z with
  | nil => rfl
  | cons a x ih =>
    cases y with
    | nil => simp [textLE] at h1
    | cons b y =>
      cases z with
      | nil => simp [textLE] at h2
      | cons c z =>
        simp only [textLE, Bool.or_eq_true, decide_eq_true_eq, Bool.and_eq_true,
          beq_iff_eq] at h1 h2 ⊢
        rcases h1 with h1 | ⟨h1, h1'⟩
        · rcases h2 with h2 | ⟨h2, _⟩
          · exact Or.inl (lt_trans h1 h2)
          · exact Or.inl (h2 ▸ h1)
        · rcases h2 with h2 | ⟨h2, h2'⟩
          · exact Or.inl (h1 ▸ h2)
          · exact Or.inr ⟨h1.trans h2, ih y z h1' h2'⟩

theorem textLE_antisymm (x y : List Nat) (h1 : textLE x y = true) (h2 : textLE y x = true) :
    x = y := by
  induction x generalizing y with
  | nil =>
    cases y with
    | nil => rfl
    | cons b y => simp [textLE] at h2
  | cons a x ih =>
    cases y with
    | nil => simp [textLE] at h1
    | cons b y =>
      simp only [textLE, Bool.or_eq_true, decide_eq_true_eq, Bool.and_eq_true,
        beq_iff_eq] at h1 h2
      rcases h1 with h1 | ⟨h1, h1'⟩
      · rcases h2 with h2 | ⟨h2, _⟩
        · omega
        · omega
      · rcases h2 with h2 | ⟨_, h2'⟩
        · omega
        · rw [h1, ih y h1' h2']

theorem decimalBytes_length (fuel n k : Nat) (acc : List Nat) (hlo : 10 ^ k ≤ n)
    (hhi : n < 10 ^ (k + 1)) (hf : k + 1 ≤ fuel) :
    (decimalBytes fuel n acc).length = k + 1 + acc.length := by
  induction fuel generalizing n k acc with
  | zero => omega
  | succ fuel ih =>
    unfold decimalBytes
    split_ifs with hn
    · have hk : k = 0 := by
        by_contra hk
        have : 10 ^ 1 ≤ 10 ^ k := Nat.pow_le_pow_right (by decide) (by omega)
        omega
      subst hk
      simp
      omega
    · obtain ⟨j, rfl⟩ : ∃ j, k = j + 1 := by
        cases k with
        | zero => simp at hhi; omega
        | succ j => exact ⟨j, rfl⟩
      have h1 : 10 ^ j ≤ n / 10 := by
        rw [Nat.le_div_iff_mul_le (by decide)]
        rw [pow_succ] at hlo
        exact hlo
      have h2 : n / 10 < 10 ^ (j + 1) := by
        rw [Nat.div_lt_iff_lt_mul (by decide)]
        rw [pow_succ] at hhi
        exact hhi
      rw [ih (n / 10) j _ h1 h2 (by omega)]
      simp
      omega

theorem textValue_lt (x : List Nat) (hx : ∀ b ∈ x, 48 ≤ b ∧ b ≤ 57) :
    textValue x < 10 ^ x.length := by
  induction x with
  | nil => simp [textValue]
  | cons b x ih =>
    have hb := hx b (List.mem_cons_self _ _)
    have hr := ih (fun c hc => hx c (List.mem_cons_of_mem _ hc))
    simp only [textValue, List.length_cons, pow_succ]
    have h9 : (b - 48) * 10 ^ x.length ≤ 9 * 10 ^ x.length :=
      Nat.mul_le_mul_right _ (by omega)
    generalize 10 ^ x.length = P at *
    generalize (b - 48) * P = Q at *
    omega

theorem textLE_iff_textValue_le (x y : List Nat) (hlen : x.length = y.length)
    (hx : ∀ b ∈ x, 48 ≤ b ∧ b ≤ 57) (hy : ∀ b ∈ y, 48 ≤ b ∧ b ≤ 57) :
    textLE x y = true ↔ textValue x ≤ textValue y := by
  induction x generalizing y with
  | nil =>
    cases y with
    | nil => simp [textLE, textValue]
    | cons b y => simp at hlen
  | cons a x ih =>
    cases y with
    | nil => simp at hlen
    | cons b y =>
      have hlen2 : x.length = y.length := by simpa using hlen
      have ha := hx a (List.mem_cons_self _ _)
      have hb := hy b (List.mem_cons_self _ _)
      have hx2 : ∀ c ∈ x, 48 ≤ c ∧ c ≤ 57 := fun c hc => hx c (List.mem_cons_of_mem _ hc)
      have hy2 : ∀ c ∈ y, 48 ≤ c ∧ c ≤ 57 := fun c hc => hy c (List.mem_cons_of_mem _ hc)
      have hvx := textValue_lt x hx2
      have hvy := textValue_lt y hy2
      have hrec := ih y hlen2 hx2 hy2
      simp only [textLE, Bool.or_eq_true, decide_eq_true_eq, Bool.and_eq_true, beq_iff_eq,
        textValue]
      rw [hrec, ← hlen2]
      rw [← hlen2] at hvy
      generalize 10 ^ x.length = P at *
      rcases Nat.lt_trichotomy a b with h | h | h
      · have h1 : (a - 48 + 1) * P ≤ (b - 48) * P := Nat.mul_le_mul_right _ (by omega)
        rw [Nat.add_mul, Nat.one_mul] at h1
        generalize (a - 48) * P = A at *
        generalize (b - 48) * P = B at *
        constructor
        · intro _; omega
        · intro _; exact Or.inl h
      · subst h
        generalize (a - 48) * P = A at *
        constructor
        · rintro (h | ⟨_, h⟩)
          · omega
          · omega
        · intro h; exact Or.inr ⟨rfl, by omega⟩
      · have h1 : (b - 48 + 1) * P ≤ (a - 48) * P := Nat.mul_le_mul_right _ (by omega)
        rw [Nat.add_mul, Nat.one_mul] at h1
        generalize (a - 48) * P = A at *
        generalize (b - 48) * P = B at *
        constructor
        · rintro (h2 | ⟨h2, _⟩)
          · omega
          · omega
        · intro _; omega

theorem natText_length (n k : Nat) (hlo : 10 ^ k ≤ n) (hhi : n < 10 ^ (k + 1)) :
    (natText n).length = k + 1 := by
  unfold natText
  have hk : k < n := lt_of_lt_of_le (Nat.lt_pow_self (by decide) k) hlo
  rw [decimalBytes_length (n + 1) n k [] hlo hhi (by omega)]
  rfl

theorem textOrder_iff_le_of_width (k : Nat) (a b : Int)
    (ha : (10 : Int) ^ k ≤ a ∧ a < 10 ^ (k + 1)) (hb : (10 : Int) ^ k ≤ b ∧ b < 10 ^ (k + 1)) :
    textOrder a b ↔ a ≤ b := by
  have hpos : (0 : Int) < 10 ^ k := by positivity
  have ha0 : ¬ a < 0 := by omega
  have hb0 : ¬ b < 0 := by omega
  have hta := Int.toNat_of_nonneg (not_lt.mp ha0)
  have htb := Int.toNat_of_nonneg (not_lt.mp hb0)
  have hna : 10 ^ k ≤ a.toNat ∧ a.toNat < 10 ^ (k + 1) := by
    constructor
    · have : ((10 ^ k : Nat) : Int) ≤ (a.toNat : Int) := by rw [hta]; push_cast; exact ha.1
      exact_mod_cast this
    · have : (a.toNat : Int) < ((10 ^ (k + 1) : Nat) : Int) := by
        rw [hta]; push_cast; exact ha.2
      exact_mod_cast this
  have hnb : 10 ^ k ≤ b.toNat ∧ b.toNat < 10 ^ (k + 1) := by
    constructor
    · have : ((10 ^ k : Nat) : Int) ≤ (b.toNat : Int) := by rw [htb]; push_cast; exact hb.1
      exact_mod_cast this
    · have : (b.toNat : Int) < ((10 ^ (k + 1) : Nat) : Int) := by
        rw [htb]; push_cast; exact hb.2
      exact_mod_cast this
  unfold textOrder partitionText
  rw [if_neg ha0, if_neg hb0]
  rw [textLE_iff_textValue_le _ _
    (by rw [natText_length _ k hna.1 hna.2, natText_length _ k hnb.1 hnb.2])
    (natText_bytes _) (natText_bytes _), textValue_natText, textValue_natText]
  omega

/-! ## Lemmas: the listing and the drop loop -/

theorem pwFilter_partitionText (l : List Partition) :
    l.pwFilter (fun a b => partitionText a ≠ partitionText b) = l.dedup := by
  induction l with
  | nil => rfl
  | cons a l ih =>
    by_cases h : a ∈ l.dedup
    · rw [List.dedup_cons_of_mem' h, List.pwFilter_cons_of_neg, ih]
      rw [ih]
      intro hall
      exact hall a h rfl
    · rw [List.dedup_cons_of_not_mem' h, List.pwFilter_cons_of_pos, ih]
      rw [ih]
      intro b hb hab
      exact h (partitionText_injective hab ▸ hb)

theorem mem_selectOldPartitions (parts : List Part) (now : Date) (days : Nat) (p : Partition) :
    p ∈ selectOldPartitions parts now days ↔
      (∃ r ∈ parts, r.partition = p) ∧ p < toYYYYMMDD (now.subDays days) := by
  unfold selectOldPartitions
  rw [(List.perm_insertionSort _ _).mem_iff, pwFilter_partitionText, List.mem_dedup,
    List.mem_filter, List.mem_map]
  simp

theorem selectOldPartitions_nodup (parts : List Part) (now : Date) (days : Nat) :
    (selectOldPartitions parts now days).Nodup := by
  unfold selectOldPartitions
  rw [(List.perm_insertionSort _ _).nodup_iff, pwFilter_partitionText]
  exact List.nodup_dedup _

theorem selectOldPartitions_sorted (parts : List Part) (now : Date) (days : Nat) :
    List.Sorted textBefore (selectOldPartitions parts now days) := by
  have hn := selectOldPartitions_nodup parts now days
  haveI : IsTotal Partition textOrder := ⟨fun a b => textLE_total _ _⟩
  haveI : IsTrans Partition textOrder := ⟨fun a b c h1 h2 => textLE_trans _ _ _ h1 h2⟩
  have hs : List.Sorted textOrder (selectOldPartitions parts now days) := by
    unfold selectOldPartitions
    exact List.sorted_insertionSort textOrder _
  have hne : List.Pairwise (fun a b => partitionText a ≠ partitionText b)
      (selectOldPartitions parts now days) :=
    List.Pairwise.imp (fun hab h => hab (partitionText_injective h)) hn
  exact List.Pairwise.imp (fun h => h) (List.Pairwise.and hs hne)

theorem execStmts_dropLoop (execErr : Partition → Bool) (ps : List Partition) (db : DB) :
    execStmts (dropLoop execErr ps db).2 = ps.map (Stmt.dropPartition "metrics") := by
  induction ps generalizing db with
  | nil => rfl
  | cons p ps ih => simp [dropLoop, execStmts, ih]

theorem droppedKeys_dropLoop (execErr : Partition → Bool) (ps : List Partition) (db : DB) :
    droppedKeys (dropLoop execErr ps db).2 = ps := by
  unfold droppedKeys
  rw [execStmts_dropLoop, List.map_map]
  exact List.map_id _

theorem mem_dropLoop_parts (execErr : Partition → Bool) (ps : List Partition) (db : DB)
    (r : Part) :
    r ∈ (dropLoop execErr ps db).1.parts ↔
      r ∈ db.parts ∧ ¬ (r.table = "metrics" ∧ r.partition ∈ ps ∧ execErr r.partition = false) := by
  induction ps generalizing db with
  | nil => simp [dropLoop]
  | cons p ps ih =>
    simp only [dropLoop]
    rw [ih]
    by_cases hf : execErr p = true
    · rw [hf]
      simp only [Exec, if_true, List.mem_cons]
      constructor
      · rintro ⟨h1, h2⟩
        refine ⟨h1, ?_⟩
        rintro ⟨ht, hp | hp, he⟩
        · rw [hp, hf] at he; exact Bool.noConfusion he
        · exact h2 ⟨ht, hp, he⟩
      · rintro ⟨h1, h2⟩
        exact ⟨h1, fun ⟨ht, hp, he⟩ => h2 ⟨ht, Or.inr hp, he⟩⟩
    · have hf2 : execErr p = false := by simpa using hf
      rw [hf2]
      simp only [Exec, Bool.false_eq_true, if_false, List.mem_filter, List.mem_cons]
      constructor
      · rintro ⟨⟨h1, h3⟩, h2⟩
        refine ⟨h1, ?_⟩
        rintro ⟨ht, hp | hp, he⟩
        · simp [ht, hp] at h3
        · exact h2 ⟨ht, hp, he⟩
      · rintro ⟨h1, h2⟩
        refine ⟨⟨h1, ?_⟩, fun ⟨ht, hp, he⟩ => h2 ⟨ht, Or.inr hp, he⟩⟩
        by_cases ht : r.table = "metrics"
        · by_cases hp : r.partition = p
          · exact absurd ⟨ht, Or.inl hp, by rw [hp]; exact hf2⟩ h2
          · simp [ht, hp]
        · simp [ht]

/-! ## Retention pruner: one sweep of `DropOldPartition` -/

/-- C1, as stated, fails when the listing itself fails: on 2024-03-01 with a horizon of
30 days the partition of 2024-01-21 (40 days old) of `metrics` is below the key of
2024-01-31, no drop fails, and yet the sweep returns at line 132 with the store unchanged
and without a single drop statement. -/
theorem DropOldPartition_listing_error_keeps_old_partition :
    (∀ p : Partition, (DBOutcome.mk true (fun _ => false)).execErr p = false) ∧
    (Date.mk 2024 3 1).valid ∧
    toYYYYMMDD ((Date.mk 2024 3 1).subDays 40) = 20240121 ∧
    (20240121 : Int) < toYYYYMMDD ((Date.mk 2024 3 1).subDays 30) ∧
    DropOldPartition (DBOutcome.mk true (fun _ => false))
        (DB.mk [Part.mk "metrics" 20240121]) (Date.mk 2024 3 1) 30
      = (DB.mk [Part.mk "metrics" 20240121], [Event.select 30, Event.logSelectError 30]) := by
  refine ⟨fun _ => rfl, by decide, ?_, ?_, rfl⟩
  · simp [Date.subDays, Date.prev, toYYYYMMDD, daysInMonth, isLeapYear]
  · simp [Date.subDays, Date.prev, toYYYYMMDD, daysInMonth, isLeapYear]

/-- One sweep over the parts of four partitions of `metrics`, two below the key of
`now - days` and two above it, when the listing and every drop succeed. -/
theorem DropOldPartition_four_keys (out : DBOutcome) (now : Date) (days : Nat)
    (a b c d : Int) (hsel : out.selectErr = false) (hexec : ∀ p, out.execErr p = false)
    (hab : a < b) (hb : b < toYYYYMMDD (now.subDays days))
    (hc : toYYYYMMDD (now.subDays days) < c) (hcd : c < d) :
    (DropOldPartition out
        (DB.mk [Part.mk "metrics" a, Part.mk "metrics" b, Part.mk "metrics" c,
          Part.mk "metrics" d]) now days).1
      = DB.mk [Part.mk "metrics" c, Part.mk "metrics" d] ∧
    (∀ p, p ∈ droppedKeys (DropOldPartition out
        (DB.mk [Part.mk "metrics" a, Part.mk "metrics" b, Part.mk "metrics" c,
          Part.mk "metrics" d]) now days).2 ↔ p = a ∨ p = b) ∧
    (textOrder a b →
      DropOldPartition out
          (DB.mk [Part.mk "metrics" a, Part.mk "metrics" b, Part.mk "metrics" c,
            Part.mk "metrics" d]) now days
        = (DB.mk [Part.mk "metrics" c, Part.mk "metrics" d],
           [Event.select days,
            Event.exec (Stmt.dropPartition "metrics" a), Event.logDrop a false,
            Event.exec (Stmt.dropPartition "metrics" b), Event.logDrop b false])) := by
  obtain ⟨t, ht⟩ : ∃ t, toYYYYMMDD (now.subDays days) = t := ⟨_, rfl⟩
  rw [ht] at hb hc
  have e1 : ¬ (c < t) := by omega
  have e2 : ¬ (d < t) := by omega
  have e3 : a < t := by omega
  have e4 : ¬ (a = b) := by omega
  have e5 : ¬ (c = a) := by omega
  have e6 : ¬ (d = a) := by omega
  have e7 : ¬ (c = b) := by omega
  have e8 : ¬ (d = b) := by omega
  have e9 : ¬ (b = a) := by omega
  have hd : [a, b].dedup = [a, b] := List.Nodup.dedup (by simp [e4])
  have hf : List.filter (fun p => decide (p < t)) [a, b, c, d] = [a, b] := by
    simp only [List.filter, e1, e2, e3, hb, decide_True, decide_False]
  have hs : selectOldPartitions [Part.mk "metrics" a, Part.mk "metrics" b,
      Part.mk "metrics" c, Part.mk "metrics" d] now days
        = if textOrder a b then [a, b] else [b, a] := by
    unfold selectOldPartitions
    simp only [List.map]
    rw [ht, hf, pwFilter_partitionText, hd]
    simp only [List.insertionSort, List.orderedInsert]
  by_cases hord : textOrder a b
  · rw [if_pos hord] at hs
    have hall : DropOldPartition out
        (DB.mk [Part.mk "metrics" a, Part.mk "metrics" b, Part.mk "metrics" c,
          Part.mk "metrics" d]) now days
        = (DB.mk [Part.mk "metrics" c, Part.mk "metrics" d],
           [Event.select days,
            Event.exec (Stmt.dropPartition "metrics" a), Event.logDrop a false,
            Event.exec (Stmt.dropPartition "metrics" b), Event.logDrop b false]) := by
      simp only [DropOldPartition, Select, hsel, Bool.false_eq_true, if_false, hs, dropLoop,
        hexec, Exec]
      simp [e5, e6, e7, e8, e9, e4]
    refine ⟨by rw [hall], ?_, fun _ => hall⟩
    intro p
    rw [hall]
    simp [droppedKeys, execStmts]
  · rw [if_neg hord] at hs
    have hall : DropOldPartition out
        (DB.mk [Part.mk "metrics" a, Part.mk "metrics" b, Part.mk "metrics" c,
          Part.mk "metrics" d]) now days
        = (DB.mk [Part.mk "metrics" c, Part.mk "metrics" d],
           [Event.select days,
            Event.exec (Stmt.dropPartition "metrics" b), Event.logDrop b false,
            Event.exec (Stmt.dropPartition "metrics" a), Event.logDrop a false]) := by
      simp only [DropOldPartition, Select, hsel, Bool.false_eq_true, if_false, hs, dropLoop,
        hexec, Exec]
      simp [e5, e6, e7, e8, e9, e4]
    refine ⟨by rw [hall], ?_, fun h => absurd h hord⟩
    intro p
    rw [hall]
    simp [droppedKeys, execStmts]
    exact or_comm

/-- C1 (amended): at every valid current date `now`, when the listing succeeds and every
drop succeeds, one sweep removes from the store exactly the parts of `metrics` whose
partition key is strictly below the key of `now - days` and keeps every other part; with the
partitions of `now - 40`, `now - 31`, `now - 29`, `now - 1` and a horizon of 30 days the
partitions it drops are exactly those of `now - 40` and `now - 31` and the store is left
with `now - 29` and `now - 1`, and when the four keys have eight digits the drops are sent
in that order; and whatever the horizon and whatever fails, a stored part of the current
day is still stored after the sweep. -/
theorem DropOldPartition_retention (db : DB) (now : Date) (hnow : now.valid) :
    (∀ (out : DBOutcome) (days : Nat), out.selectErr = false →
      (∀ p, out.execErr p = false) →
      ∀ r : Part, r ∈ (DropOldPartition out db now days).1.parts ↔
        r ∈ db.parts ∧
          ¬ (r.table = "metrics" ∧ r.partition < toYYYYMMDD (now.subDays days))) ∧
    (∀ out : DBOutcome, out.selectErr = false → (∀ p, out.execErr p = false) →
      (DropOldPartition out
          (DB.mk [Part.mk "metrics" (toYYYYMMDD (now.subDays 40)),
                  Part.mk "metrics" (toYYYYMMDD (now.subDays 31)),
                  Part.mk "metrics" (toYYYYMMDD (now.subDays 29)),
                  Part.mk "metrics" (toYYYYMMDD (now.subDays 1))]) now 30).1
        = DB.mk [Part.mk "metrics" (toYYYYMMDD (now.subDays 29)),
                 Part.mk "metrics" (toYYYYMMDD (now.subDays 1))] ∧
      (∀ p, p ∈ droppedKeys (DropOldPartition out
          (DB.mk [Part.mk "metrics" (toYYYYMMDD (now.subDays 40)),
                  Part.mk "metrics" (toYYYYMMDD (now.subDays 31)),
                  Part.mk "metrics" (toYYYYMMDD (now.subDays 29)),
                  Part.mk "metrics" (toYYYYMMDD (now.subDays 1))]) now 30).2 ↔
        p = toYYYYMMDD (now.subDays 40) ∨ p = toYYYYMMDD (now.subDays 31)) ∧
      (10000000 ≤ toYYYYMMDD (now.subDays 40) → toYYYYMMDD now < 100000000 →
        DropOldPartition out
            (DB.mk [Part.mk "metrics" (toYYYYMMDD (now.subDays 40)),
                    Part.mk "metrics" (toYYYYMMDD (now.subDays 31)),
                    Part.mk "metrics" (toYYYYMMDD (now.subDays 29)),
                    Part.mk "metrics" (toYYYYMMDD (now.subDays 1))]) now 30
          = (DB.mk [Part.mk "metrics" (toYYYYMMDD (now.subDays 29)),
                    Part.mk "metrics" (toYYYYMMDD (now.subDays 1))],
             [Event.select 30,
              Event.exec (Stmt.dropPartition "metrics" (toYYYYMMDD (now.subDays 40))),
              Event.logDrop (toYYYYMMDD (now.subDays 40)) false,
              Event.exec (Stmt.dropPartition "metrics" (toYYYYMMDD (now.subDays 31))),
              Event.logDrop (toYYYYMMDD (now.subDays 31)) false]))) ∧
    (∀ (out : DBOutcome) (days : Nat), ∀ r ∈ db.parts, r.partition = toYYYYMMDD now →
      r ∈ (DropOldPartition out db now days).1.parts) := by
  refine ⟨?_, ?_, ?_⟩
  · intro out days hsel hexec r
    simp only [DropOldPartition, Select, hsel, Bool.false_eq_true, if_false]
    rw [mem_dropLoop_parts, mem_selectOldPartitions]
    constructor
    · rintro ⟨h1, h2⟩
      exact ⟨h1, fun ⟨ht, hlt⟩ => h2 ⟨ht, ⟨⟨r, h1, rfl⟩, hlt⟩, hexec _⟩⟩
    · rintro ⟨h1, h2⟩
      exact ⟨h1, fun ⟨ht, ⟨_, hlt⟩, _⟩ => h2 ⟨ht, hlt⟩⟩
  · intro out hsel hexec
    have h1 := Date.subDays_lt_of_lt now hnow (show 31 < 40 by decide)
    have h2 := Date.subDays_lt_of_lt now hnow (show 30 < 31 by decide)
    have h3 := Date.subDays_lt_of_lt now hnow (show 29 < 30 by decide)
    have h4 := Date.subDays_lt_of_lt now hnow (show 1 < 29 by decide)
    have h5 := Date.subDays_lt_of_lt now hnow (show 0 < 1 by decide)
    have hfour := DropOldPartition_four_keys out now 30 _ _ _ _ hsel hexec h1 h2 h3 h4
    refine ⟨hfour.1, hfour.2.1, ?_⟩
    intro hlo hhi
    apply hfour.2.2
    have h0 : toYYYYMMDD (now.subDays 0) = toYYYYMMDD now := rfl
    rw [h0] at h5
    refine (textOrder_iff_le_of_width 7 _ _ ⟨?_, ?_⟩ ⟨?_, ?_⟩).mpr (le_of_lt h1)
    · norm_num; exact hlo
    · norm_num; omega
    · norm_num; omega
    · norm_num; omega
  · intro out days r hr hkey
    unfold DropOldPartition Select
    by_cases hsel : out.selectErr = true
    · simpa [hsel] using hr
    · have hsel2 : out.selectErr = false := by simpa using hsel
      simp only [hsel2, Bool.false_eq_true, if_false]
      rw [mem_dropLoop_parts]
      refine ⟨hr, ?_⟩
      rintro ⟨_, hmem, _⟩
      have hlt := ((mem_selectOldPartitions _ _ _ _).mp hmem).2
      have hle := Date.subDays_le now hnow days
      rw [hkey] at hlt
      exact absurd hlt (not_lt.mpr hle)

/-- Witness of `DropOldPartition_retention`: the sweep of 2024-03-01 with a horizon of 30
days over the partitions of 01-21, 01-30, 02-01 and 02-29. -/
theorem DropOldPartition_retention_witness :
    (Date.mk 2024 3 1).valid ∧
    DropOldPartition (DBOutcome.mk false (fun _ => false))
        (DB.mk [Part.mk "metrics" 20240121, Part.mk "metrics" 20240130,
                Part.mk "metrics" 20240201, Part.mk "metrics" 20240229]) (Date.mk 2024 3 1) 30
      = (DB.mk [Part.mk "metrics" 20240201, Part.mk "metrics" 20240229],
         [Event.select 30,
          Event.exec (Stmt.dropPartition "metrics" 20240121), Event.logDrop 20240121 false,
          Event.exec (Stmt.dropPartition "metrics" 20240130),
          Event.logDrop 20240130 false]) := by
  have h := (DropOldPartition_retention (DB.mk []) (Date.mk 2024 3 1) (by decide)).2.1
    (DBOutcome.mk false (fun _ => false)) rfl (fun _ => rfl)
  have k40 : toYYYYMMDD ((Date.mk 2024 3 1).subDays 40) = 20240121 := by
    simp [Date.subDays, Date.prev, toYYYYMMDD, daysInMonth, isLeapYear]
  have k31 : toYYYYMMDD ((Date.mk 2024 3 1).subDays 31) = 20240130 := by
    simp [Date.subDays, Date.prev, toYYYYMMDD, daysInMonth, isLeapYear]
  have k29 : toYYYYMMDD ((Date.mk 2024 3 1).subDays 29) = 20240201 := by
    simp [Date.subDays, Date.prev, toYYYYMMDD, daysInMonth, isLeapYear]
  have k1 : toYYYYMMDD ((Date.mk 2024 3 1).subDays 1) = 20240229 := by
    simp [Date.subDays, Date.prev, toYYYYMMDD, daysInMonth, isLeapYear]
  rw [k40, k31, k29, k1] at h
  exact ⟨by decide, h.2.2 (by decide) (by decide)⟩

/-- C4, as stated, fails when the listing holds keys of different widths: on 2024-11-02
with a horizon of one day the store holds the daily partition 20240901 of `metrics` and
the monthly partition 202410 of another table; the listing is in the order of the texts,
`20240901` before `202410`, the drops are sent in that order, and the partition keys of
the drop statements are not in ascending order. -/
theorem DropOldPartition_text_order_is_not_key_order :
    Select false
        (DB.mk [Part.mk "metrics" 20240901, Part.mk "monthly" 202410]) (Date.mk 2024 11 2) 1
      = some [20240901, 202410] ∧
    droppedKeys (DropOldPartition (DBOutcome.mk false (fun _ => false))
        (DB.mk [Part.mk "metrics" 20240901, Part.mk "monthly" 202410])
        (Date.mk 2024 11 2) 1).2 = [20240901, 202410] ∧
    ¬ List.Sorted (fun a b => a < b)
      (droppedKeys (DropOldPartition (DBOutcome.mk false (fun _ => false))
        (DB.mk [Part.mk "metrics" 20240901, Part.mk "monthly" 202410])
        (Date.mk 2024 11 2) 1).2) := by
  have hs : Select false
      (DB.mk [Part.mk "metrics" 20240901, Part.mk "monthly" 202410]) (Date.mk 2024 11 2) 1
        = some [20240901, 202410] := by decide
  have hk : droppedKeys (DropOldPartition (DBOutcome.mk false (fun _ => false))
      (DB.mk [Part.mk "metrics" 20240901, Part.mk "monthly" 202410])
      (Date.mk 2024 11 2) 1).2 = [20240901, 202410] := by
    simp only [DropOldPartition, hs]
    rfl
  refine ⟨hs, hk, ?_⟩
  rw [hk]
  decide

/-- C4 (amended): when the listing of a sweep returns `partitions`, the statements the
sweep sends are exactly the drops on `metrics` of the listed partitions, one per element
and in the order of the listing; the partitions they name are strictly ascending in the
order of the texts of the column `partition`, so none is repeated; and when the listed
keys all have the same number of digits, as keys YYYYMMDD have, the keys are strictly
ascending as numbers. -/
theorem DropOldPartition_one_drop_per_listed_partition (out : DBOutcome) (db : DB)
    (now : Date) (days : Nat) (partitions : List Partition)
    (h : Select out.selectErr db now days = some partitions) :
    execStmts (DropOldPartition out db now days).2
        = partitions.map (Stmt.dropPartition "metrics") ∧
      List.Sorted textBefore (droppedKeys (DropOldPartition out db now days).2) ∧
      (∀ k : Nat, (∀ p ∈ partitions, (10 : Int) ^ k ≤ p ∧ p < 10 ^ (k + 1)) →
        List.Sorted (fun a b => a < b)
          (droppedKeys (DropOldPartition out db now days).2)) := by
  have hp : partitions = selectOldPartitions db.parts now days := by
    unfold Select at h
    split_ifs at h
    exact (Option.some.inj h).symm
  have hd : DropOldPartition out db now days
      = ((dropLoop out.execErr partitions db).1,
         Event.select days :: (dropLoop out.execErr partitions db).2) := by
    simp only [DropOldPartition, h]
  have hk : droppedKeys (DropOldPartition out db now days).2 = partitions := by
    rw [hd]
    have : droppedKeys (Event.select days :: (dropLoop out.execErr partitions db).2)
        = droppedKeys (dropLoop out.execErr partitions db).2 := rfl
    rw [this, droppedKeys_dropLoop]
  have hsorted : List.Sorted textBefore partitions := by
    rw [hp]; exact selectOldPartitions_sorted _ _ _
  refine ⟨?_, ?_, ?_⟩
  · rw [hd]
    simp only [execStmts]
    exact execStmts_dropLoop _ _ _
  · rw [hk]; exact hsorted
  · intro k hw
    rw [hk]
    refine List.Pairwise.imp_of_mem ?_ hsorted
    intro a b ha hb hab
    have hle := (textOrder_iff_le_of_width k a b (hw a ha) (hw b hb)).mp hab.1
    have hne : a ≠ b := fun e => hab.2 (by rw [e])
    exact lt_of_le_of_ne hle hne

/-- Witness of `DropOldPartition_one_drop_per_listed_partition`: parts listed out of
order, one partition with two parts, one drop failing. -/
theorem DropOldPartition_one_drop_per_listed_partition_witness :
    Select false (DB.mk [Part.mk "metrics" 20240228, Part.mk "metrics" 20240226,
        Part.mk "metrics" 20240226, Part.mk "metrics" 20240301]) (Date.mk 2024 3 1) 1
      = some [20240226, 20240228] ∧
    execStmts (DropOldPartition (DBOutcome.mk false (fun p => p == 20240226))
        (DB.mk [Part.mk "metrics" 20240228, Part.mk "metrics" 20240226,
          Part.mk "metrics" 20240226, Part.mk "metrics" 20240301]) (Date.mk 2024 3 1) 1).2
      = [Stmt.dropPartition "metrics" 20240226, Stmt.dropPartition "metrics" 20240228] :=
  ⟨by decide,
   (DropOldPartition_one_drop_per_listed_partition (DBOutcome.mk false (fun p => p == 20240226))
      (DB.mk [Part.mk "metrics" 20240228, Part.mk "metrics" 20240226,
        Part.mk "metrics" 20240226, Part.mk "metrics" 20240301]) (Date.mk 2024 3 1) 1
      [20240226, 20240228] (by decide)).1⟩

/-- C5: for every list of partitions handed to the loop of a sweep and every pattern of
drop failures, the sweep sends the drop of every listed partition, in order, and logs the
outcome of each; in particular every partition listed after one whose drop fails still has
its drop sent; and a sweep whose listing succeeds runs this loop over the whole listing. -/
theorem DropOldPartition_attempts_every_partition (execErr : Partition → Bool) :
    (∀ (partitions : List Partition) (db : DB),
      droppedKeys (dropLoop execErr partitions db).2 = partitions ∧
      ∀ p ∈ partitions, Event.logDrop p (execErr p) ∈ (dropLoop execErr partitions db).2) ∧
    (∀ (before after : List Partition) (p : Partition) (db : DB), execErr p = true →
      ∀ q ∈ after, Event.exec (Stmt.dropPartition "metrics" q)
        ∈ (dropLoop execErr (before ++ p :: after) db).2) ∧
    (∀ (db : DB) (now : Date) (days : Nat),
      droppedKeys (DropOldPartition (DBOutcome.mk false execErr) db now days).2
        = selectOldPartitions db.parts now days) := by
  have hmem : ∀ (partitions : List Partition) (db : DB), ∀ p ∈ partitions,
      Event.exec (Stmt.dropPartition "metrics" p) ∈ (dropLoop execErr partitions db).2 ∧
      Event.logDrop p (execErr p) ∈ (dropLoop execErr partitions db).2 := by
    intro partitions
    induction partitions with
    | nil => intro db p hp; cases hp
    | cons a rest ih =>
      intro db p hp
      simp only [dropLoop]
      rcases List.mem_cons.mp hp with rfl | hp
      · simp
      · have := ih (Exec db (Stmt.dropPartition "metrics" a) (execErr a)) p hp
        exact ⟨List.mem_cons_of_mem _ (List.mem_cons_of_mem _ this.1),
          List.mem_cons_of_mem _ (List.mem_cons_of_mem _ this.2)⟩
  refine ⟨fun partitions db => ⟨droppedKeys_dropLoop _ _ _, fun p hp => (hmem _ db p hp).2⟩,
    ?_, ?_⟩
  · intro before after p db _ q hq
    exact (hmem _ db q (List.mem_append_right _ (List.mem_cons_of_mem _ hq))).1
  · intro db now days
    have : droppedKeys (DropOldPartition (DBOutcome.mk false execErr) db now days).2
        = droppedKeys (dropLoop execErr (selectOldPartitions db.parts now days) db).2 := rfl
    rw [this, droppedKeys_dropLoop]

/-! ## Shutdown ordering -/

theorem cancelAfterGrpcReturn_append (t : List LifeEvent) (e : LifeEvent)
    (ht : cancelAfterGrpcReturn t)
    (he : e = LifeEvent.mbmCancel →
      LifeEvent.grpcServerStopped ∈ t ∧ LifeEvent.grpcReturned ∈ t) :
    cancelAfterGrpcReturn (t ++ [e]) := by
  intro before after h
  rcases List.eq_nil_or_concat after with rfl | ⟨after1, x, rfl⟩
  · have h2 := List.append_inj' h rfl
    obtain ⟨h3, h4⟩ := h2
    have : e = LifeEvent.mbmCancel := by simpa using h4
    rw [← h3]
    exact he this
  · have h1 : t ++ [e] = (before ++ LifeEvent.mbmCancel :: after1) ++ [x] := by
      rw [h]; simp
    have h2 := List.append_inj' h1 rfl
    exact ht before after1 h2.1

theorem Inv_initial : Inv State.initial := by
  refine ⟨?_, ?_, ?_, ?_⟩
  · intro before after h
    cases before <;> simp [State.initial] at h
  · intro h; simp [State.initial] at h
  · intro h; simp [State.initial] at h
  · intro h; simp [State.initial] at h

/-- Appending an event other than `mbmCancel`, with the gRPC goroutine where it was. -/
theorem Inv_log (s : State) (h : Inv s) (s2 : State) (e : LifeEvent)
    (he : e ≠ LifeEvent.mbmCancel) (ht : s2.trace = s.trace ++ [e])
    (hg : s2.grpc = s.grpc) (hm : s2.mbmCtxDone = s.mbmCtxDone) : Inv s2 := by
  refine ⟨?_, ?_, ?_, ?_⟩
  · rw [ht]; exact cancelAfterGrpcReturn_append _ _ h.ordered (fun h2 => absurd h2 he)
  · rw [hm, hg]; exact h.cancelled_done
  · rw [ht, hg]
    intro hmem
    rcases List.mem_append.mp hmem with h1 | h1
    · exact h.traced_done h1
    · exact absurd (List.mem_singleton.mp h1).symm he
  · rw [ht, hg]
    intro h1
    have := h.returned_traced h1
    exact ⟨List.mem_append_left _ this.1, List.mem_append_left _ this.2⟩

/-- A step that changes neither the trace nor the gRPC goroutine. -/
theorem Inv_silent (s : State) (h : Inv s) (s2 : State) (ht : s2.trace = s.trace)
    (hg : s2.grpc = s.grpc) (hm : s2.mbmCtxDone = s.mbmCtxDone) : Inv s2 := by
  refine ⟨?_, ?_, ?_, ?_⟩
  · rw [ht]; exact h.ordered
  · rw [hm, hg]; exact h.cancelled_done
  · rw [ht, hg]; exact h.traced_done
  · rw [ht, hg]; exact h.returned_traced

theorem Inv_grpcStep (s : State) (h : Inv s) : Inv (grpcStep s) := by
  unfold grpcStep
  split
  next hg =>
    refine ⟨?_, ?_, ?_, ?_⟩
    · exact cancelAfterGrpcReturn_append _ _ h.ordered (fun h2 => LifeEvent.noConfusion h2)
    · intro hm
      have := h.cancelled_done hm
      rw [hg] at this; exact GrpcPC.noConfusion this
    · intro hmem
      simp only [List.mem_append, List.mem_singleton] at hmem
      rcases hmem with h1 | h1
      · have := h.traced_done h1
        rw [hg] at this; exact GrpcPC.noConfusion this
      · exact LifeEvent.noConfusion h1
    · intro h1
      simp at h1
  next hg =>
    split_ifs with hc
    · refine ⟨?_, ?_, ?_, ?_⟩
      · exact cancelAfterGrpcReturn_append _ _ h.ordered (fun h2 => LifeEvent.noConfusion h2)
      · intro hm
        have := h.cancelled_done hm
        rw [hg] at this; exact GrpcPC.noConfusion this
      · intro hmem
        simp only [List.mem_append, List.mem_singleton] at hmem
        rcases hmem with h1 | h1
        · have := h.traced_done h1
          rw [hg] at this; exact GrpcPC.noConfusion this
        · exact LifeEvent.noConfusion h1
      · intro h1
        simp at h1
    · exact h
  next hg =>
    split_ifs with hc
    · exact h
    · refine ⟨?_, ?_, ?_, ?_⟩
      · have e : s.trace ++ [LifeEvent.grpcServerStopped, LifeEvent.grpcReturned]
            = (s.trace ++ [LifeEvent.grpcServerStopped]) ++ [LifeEvent.grpcReturned] := by
          simp
        show cancelAfterGrpcReturn
          (s.trace ++ [LifeEvent.grpcServerStopped, LifeEvent.grpcReturned])
        rw [e]
        exact cancelAfterGrpcReturn_append _ _
          (cancelAfterGrpcReturn_append _ _ h.ordered (fun h2 => LifeEvent.noConfusion h2))
          (fun h2 => LifeEvent.noConfusion h2)
      · intro hm
        have := h.cancelled_done hm
        rw [hg] at this; exact GrpcPC.noConfusion this
      · intro hmem
        simp only [List.mem_append, List.mem_cons, List.mem_singleton] at hmem
        rcases hmem with h1 | h1 | h1 | h1
        · have := h.traced_done h1
          rw [hg] at this; exact GrpcPC.noConfusion this
        · exact LifeEvent.noConfusion h1
        · exact LifeEvent.noConfusion h1
        · cases h1
      · intro _
        simp
  next hg =>
    have hr := h.returned_traced (Or.inl hg)
    refine ⟨?_, ?_, ?_, ?_⟩
    · exact cancelAfterGrpcReturn_append _ _ h.ordered (fun _ => hr)
    · intro _; rfl
    · intro _; rfl
    · intro _
      exact ⟨List.mem_append_left _ hr.1, List.mem_append_left _ hr.2⟩
  next hg => exact h

theorem Inv_step (s : State) (a : Action) (h : Inv s) : Inv (step s a) := by
  unfold step
  by_cases hx : s.exited = true
  · rw [if_pos hx]; exact h
  · rw [if_neg hx]
    cases a with
    | signal sig =>
      simp only
      split
      · exact Inv_log s h _ _ (fun h2 => LifeEvent.noConfusion h2) rfl rfl rfl
      · exact h
    | handlerStep =>
      simp only
      split
      · exact Inv_log s h _ _ (fun h2 => LifeEvent.noConfusion h2) rfl rfl rfl
      · exact h
    | grpcStep => exact Inv_grpcStep s h
    | listenFails =>
      simp only
      split_ifs
      · exact Inv_log s h _ _ (fun h2 => LifeEvent.noConfusion h2) rfl rfl rfl
      · exact h
    | rpcArrives =>
      simp only
      split_ifs
      · exact Inv_silent s h _ rfl rfl rfl
      · exact h
    | rpcsFinish => exact Inv_silent s h _ rfl rfl rfl
    | graceExpires =>
      simp only
      split_ifs
      · exact Inv_silent s h _ rfl rfl rfl
      · exact h
    | helperStep =>
      simp only
      split_ifs
      · exact Inv_log s h _ _ (fun h2 => LifeEvent.noConfusion h2) rfl rfl rfl
      · exact h
    | ingestionStep =>
      simp only
      split_ifs
      · exact Inv_log s h _ _ (fun h2 => LifeEvent.noConfusion h2) rfl rfl rfl
      · exact h
    | otherStep => exact h
    | crash => exact Inv_log s h _ _ (fun h2 => LifeEvent.noConfusion h2) rfl rfl rfl

theorem Inv_run (acts : List Action) (s : State) (h : Inv s) : Inv (run s acts) := by
  induction acts generalizing s with
  | nil => exact h
  | cons a rest ih => exact ih _ (Inv_step s a h)

/-- C2: in every execution of `main`, whatever signals arrive and however long the RPCs in
flight last, every `mbmCancel` in the trace comes after the event that the gRPC server has
fully stopped (`GracefulStop` returned) and after the return of `runGRPCServer`. -/
theorem mbmCancel_only_after_runGRPCServer_returned (acts : List Action)
    (before after : List LifeEvent)
    (h : (run State.initial acts).trace = before ++ LifeEvent.mbmCancel :: after) :
    LifeEvent.grpcServerStopped ∈ before ∧ LifeEvent.grpcReturned ∈ before :=
  (Inv_run acts State.initial Inv_initial).ordered before after h

/-- Witness of `mbmCancel_only_after_runGRPCServer_returned`: an RPC is in flight, two
signals arrive, the grace period expires and the server is stopped by force; the
ingestion context is cancelled after that and the ingestion returns last. -/
theorem mbmCancel_only_after_runGRPCServer_returned_witness :
    (run State.initial
        [Action.grpcStep, Action.rpcArrives, Action.signal Signal.SIGTERM,
         Action.signal Signal.SIGINT, Action.handlerStep, Action.ingestionStep,
         Action.grpcStep, Action.grpcStep, Action.graceExpires, Action.helperStep,
         Action.grpcStep, Action.grpcStep, Action.ingestionStep]).trace
      = [LifeEvent.grpcListening, LifeEvent.signalReceived Signal.SIGTERM,
         LifeEvent.rootCancel, LifeEvent.grpcGracefulStop, LifeEvent.grpcStop,
         LifeEvent.grpcServerStopped, LifeEvent.grpcReturned]
        ++ LifeEvent.mbmCancel :: [LifeEvent.ingestionReturned] ∧
    (LifeEvent.grpcServerStopped ∈
        [LifeEvent.grpcListening, LifeEvent.signalReceived Signal.SIGTERM,
         LifeEvent.rootCancel, LifeEvent.grpcGracefulStop, LifeEvent.grpcStop,
         LifeEvent.grpcServerStopped, LifeEvent.grpcReturned] ∧
      LifeEvent.grpcReturned ∈
        [LifeEvent.grpcListening, LifeEvent.signalReceived Signal.SIGTERM,
         LifeEvent.rootCancel, LifeEvent.grpcGracefulStop, LifeEvent.grpcStop,
         LifeEvent.grpcServerStopped, LifeEvent.grpcReturned]) :=
  ⟨by decide,
   mbmCancel_only_after_runGRPCServer_returned
     [Action.grpcStep, Action.rpcArrives, Action.signal Signal.SIGTERM,
      Action.signal Signal.SIGINT, Action.handlerStep, Action.ingestionStep,
      Action.grpcStep, Action.grpcStep, Action.graceExpires, Action.helperStep,
      Action.grpcStep, Action.grpcStep, Action.ingestionStep]
     _ [LifeEvent.ingestionReturned] (by decide)⟩

/-! ## The struct-tag mapping function -/

theorem Split_eq_takeWhile_cons (s : List Char) (sep : Char) :
    ∃ pieces, Split s sep = s.takeWhile (fun c => c != sep) :: pieces := by
  induction s with
  | nil => exact ⟨[], rfl⟩
  | cons c cs ih =>
    obtain ⟨pieces, hp⟩ := ih
    by_cases hc : c = sep
    · exact ⟨Split cs sep, by simp [Split, hc]⟩
    · exact ⟨pieces, by simp [Split, hc, hp]⟩

theorem takeWhile_append_of_mem (s : List Char) (sep : Char) (h : sep ∈ s) :
    ∃ rest, s = s.takeWhile (fun c => c != sep) ++ sep :: rest := by
  induction s with
  | nil => cases h
  | cons c cs ih =>
    by_cases hc : c = sep
    · exact ⟨cs, by simp [hc]⟩
    · have hmem : sep ∈ cs := by
        rcases List.mem_cons.mp h with h1 | h1
        · exact absurd h1.symm hc
        · exact h1
      obtain ⟨rest, hr⟩ := ih hmem
      refine ⟨rest, ?_⟩
      have ht : List.takeWhile (fun c => c != sep) (c :: cs)
          = c :: List.takeWhile (fun c => c != sep) cs := by
        have hb : (c != sep) = true := by simpa using hc
        simp only [List.takeWhile, hb]
      rw [ht, List.cons_append, ← hr]

theorem not_mem_takeWhile (s : List Char) (sep : Char) :
    sep ∉ s.takeWhile (fun c => c != sep) := by
  intro h
  have := List.mem_takeWhile_imp h
  simp at this

theorem tagMapFunc_eq_takeWhile (value : List Char) :
    tagMapFunc value = value.takeWhile (fun c => c != ',') := by
  unfold tagMapFunc Contains
  obtain ⟨pieces, hp⟩ := Split_eq_takeWhile_cons value ','
  by_cases h : ',' ∈ value
  · have he : List.elem ',' value = true := by simpa using h
    rw [he, hp]; rfl
  · have he : List.elem ',' value = false := by simpa using h
    rw [he]
    simp only [Bool.false_eq_true, if_false]
    symm
    rw [List.takeWhile_eq_self_iff]
    intro c hc
    simp only [bne_iff_ne, ne_eq]
    rintro rfl
    exact h hc

/-- C10: the tag mapper of `NewDB` returns, for a value that contains a comma, exactly the
part before the first comma (the value is the result, a comma, and a rest, and the
result has no comma) and returns a value without a comma unchanged; its result never
contains a comma and mapping twice is the same as mapping once. -/
theorem tagMapFunc_first_field (value : List Char) :
    (',' ∈ value → ∃ rest, value = tagMapFunc value ++ ',' :: rest) ∧
    (',' ∉ value → tagMapFunc value = value) ∧
    ',' ∉ tagMapFunc value ∧
    tagMapFunc (tagMapFunc value) = tagMapFunc value := by
  have hn : ',' ∉ tagMapFunc value := by
    rw [tagMapFunc_eq_takeWhile]; exact not_mem_takeWhile _ _
  have hid : ∀ v : List Char, ',' ∉ v → tagMapFunc v = v := by
    intro v hv
    rw [tagMapFunc_eq_takeWhile, List.takeWhile_eq_self_iff]
    intro c hc
    simp only [bne_iff_ne, ne_eq]
    rintro rfl
    exact hv hc
  refine ⟨?_, hid value, hn, hid _ hn⟩
  intro h
  rw [tagMapFunc_eq_takeWhile]
  exact takeWhile_append_of_mem value ',' h

/-! ## Migrations and start-up -/

theorem runMigrations_of_up (o : MigrateOutcome) (version : Nat)
    (hw : o.withInstanceErr = none) (hn : o.newInstanceErr = none) :
    runMigrations o version =
      if (o.up version).2 = some GoError.ErrNoChange then ((o.up version).1, none)
      else ((o.up version).1, (o.up version).2) := by
  simp only [runMigrations, hw, hn]

theorem runMigrations_error_of_up_error (o : MigrateOutcome) (version : Nat) (e : GoError)
    (hup : (o.up version).2 = some e) (hne : e ≠ GoError.ErrNoChange) :
    ∃ err, (runMigrations o version).2 = some err := by
  unfold runMigrations
  cases hw : o.withInstanceErr with
  | some msg => exact ⟨_, rfl⟩
  | none =>
    cases hn : o.newInstanceErr with
    | some msg => exact ⟨_, rfl⟩
    | none =>
      have hne2 : ¬ ((o.up version).2 = some GoError.ErrNoChange) := by
        rw [hup]
        intro h
        exact hne (Option.some.inj h)
      simp only [hne2, if_false]
      exact ⟨e, hup⟩

theorem NewDB_error_of_runMigrations_error (o : StartOutcome) (version : Nat) (err : GoError)
    (h : (runMigrations o.migrate version).2 = some err) :
    ∃ msg, NewDB o version = Except.error msg := by
  unfold NewDB
  cases o.connectErr with
  | some msg => exact ⟨msg, rfl⟩
  | none =>
    cases hr : runMigrations o.migrate version with
    | mk v e2 =>
      rw [hr] at h
      simp only at h
      subst h
      exact ⟨_, rfl⟩

/-- C3: when the `Up` of the migrator yields an error other than `ErrNoChange`, `NewDB`
aborts the process, and `main` then starts no goroutine at all: no listener, no ingestion
loop, no pruner loop; and in every run of `main` a goroutine is started only when `NewDB`
has returned a database handle. -/
theorem main_starts_nothing_on_migration_error (o : StartOutcome) (version : Nat) :
    (∀ e : GoError, (o.migrate.up version).2 = some e → e ≠ GoError.ErrNoChange →
      ∃ msg, NewDB o version = Except.error msg ∧
        main o version = [MainEvent.fatal msg] ∧
        ∀ t : Task, MainEvent.go t ∉ main o version) ∧
    (∀ t : Task, MainEvent.go t ∈ main o version → ∃ db, NewDB o version = Except.ok db) := by
  refine ⟨?_, ?_⟩
  · intro e hup hne
    obtain ⟨err, herr⟩ := runMigrations_error_of_up_error o.migrate version e hup hne
    obtain ⟨msg, hmsg⟩ := NewDB_error_of_runMigrations_error o version err herr
    refine ⟨msg, hmsg, ?_, ?_⟩
    · simp only [main, hmsg]
    · intro t
      simp only [main, hmsg]
      simp
  · intro t ht
    cases hdb : NewDB o version with
    | error msg =>
      simp only [main, hdb] at ht
      simp at ht
    | ok db => exact ⟨db, rfl⟩

theorem applyScripts_version (scriptErr : Nat → Option String) (n v : Nat)
    (h : (applyScripts scriptErr n v).2 = none) :
    (applyScripts scriptErr n v).1 = v + n := by
  induction n generalizing v with
  | zero => rfl
  | succ n ih =>
    unfold applyScripts at h ⊢
    cases hs : scriptErr (v + 1) with
    | some msg => rw [hs] at h; simp at h
    | none =>
      rw [hs] at h
      simp only at h ⊢
      rw [ih (v + 1) h]
      omega

theorem applyScripts_ne_noChange (scriptErr : Nat → Option String) (n v : Nat) :
    (applyScripts scriptErr n v).2 ≠ some GoError.ErrNoChange := by
  induction n generalizing v with
  | zero => simp [applyScripts]
  | succ n ih =>
    unfold applyScripts
    cases hs : scriptErr (v + 1) with
    | some msg => simp
    | none => exact ih (v + 1)

/-- C6: with the calls before `Up` succeeding, when `Up` reports `ErrNoChange` and leaves
the schema version as it is, `runMigrations` returns no error and the same version, and
`NewDB` returns the database handle instead of aborting; every other error of `Up` is
returned as it is; and with the migrator of versions `1 .. latest`, a second
`runMigrations` right after one that returned no error finds nothing pending, returns
no error and leaves the version unchanged. -/
theorem runMigrations_no_change_is_success (o : MigrateOutcome) (version : Nat)
    (hw : o.withInstanceErr = none) (hn : o.newInstanceErr = none) :
    (o.up version = (version, some GoError.ErrNoChange) →
      runMigrations o version = (version, none) ∧
      NewDB (StartOutcome.mk none o) version = Except.ok version) ∧
    (∀ e : GoError, (o.up version).2 = some e → e ≠ GoError.ErrNoChange →
      (runMigrations o version).2 = some e) ∧
    (∀ (latest : Nat) (scriptErr scriptErr2 : Nat → Option String),
      o.up = Migrator.Up latest scriptErr →
      (runMigrations o version).2 = none →
      (Migrator.Up latest scriptErr2 (runMigrations o version).1).2
          = some GoError.ErrNoChange ∧
        runMigrations (MigrateOutcome.mk none none (Migrator.Up latest scriptErr2))
            (runMigrations o version).1
          = ((runMigrations o version).1, none)) := by
  have hr := runMigrations_of_up o version hw hn
  refine ⟨?_, ?_, ?_⟩
  · intro hup
    have h1 : runMigrations o version = (version, none) := by
      rw [hr, hup]; simp
    refine ⟨h1, ?_⟩
    simp only [NewDB, h1]
  · intro e hup hne
    have hne2 : ¬ ((o.up version).2 = some GoError.ErrNoChange) := by
      rw [hup]
      intro h
      exact hne (Option.some.inj h)
    rw [hr, if_neg hne2]
    exact hup
  · intro latest scriptErr scriptErr2 hup hnone
    have hge : latest ≤ (runMigrations o version).1 := by
      rw [hr] at hnone ⊢
      rw [hup] at hnone ⊢
      unfold Migrator.Up at hnone ⊢
      by_cases hl : latest ≤ version
      · simp only [hl, if_true]
      · simp only [hl, if_false] at hnone ⊢
        have hne := applyScripts_ne_noChange scriptErr (latest - version) version
        simp only [hne, if_false] at hnone ⊢
        rw [applyScripts_version scriptErr _ _ hnone]
        omega
    have hu : Migrator.Up latest scriptErr2 (runMigrations o version).1
        = ((runMigrations o version).1, some GoError.ErrNoChange) := by
      unfold Migrator.Up
      rw [if_pos hge]
    refine ⟨by rw [hu], ?_⟩
    rw [runMigrations_of_up _ _ rfl rfl]
    simp only [hu, if_true]

/-- Witness of `runMigrations_no_change_is_success`: three scripts, none failing, on an
empty store; the second run would fail every script and runs none. -/
theorem runMigrations_no_change_is_success_witness :
    (MigrateOutcome.mk none none (Migrator.Up 3 (fun _ => none))).withInstanceErr = none ∧
    (MigrateOutcome.mk none none (Migrator.Up 3 (fun _ => none))).newInstanceErr = none ∧
    runMigrations (MigrateOutcome.mk none none (Migrator.Up 3 (fun _ => none))) 0
      = (3, none) ∧
    runMigrations (MigrateOutcome.mk none none (Migrator.Up 3 (fun _ => some "boom"))) 3
      = (3, none) :=
  ⟨rfl, rfl, by decide,
   ((runMigrations_no_change_is_success
      (MigrateOutcome.mk none none (Migrator.Up 3 (fun _ => none))) 0 rfl rfl).2.2
      3 (fun _ => none) (fun _ => some "boom") rfl (by decide)).2⟩

/-! ## Listeners: serve tasks -/

/-- C7, as stated, fails for the HTTP gateway and for the diagnostics listener: when
`ListenAndServe` fails while no shutdown is in progress, the task logs the error and
panics; `ListenAndServe` is called once and never again, whatever would come next. -/
theorem runJSONServer_serve_failure_is_not_restarted :
    serveTask Listener.json [ServeResult.failed "accept: too many open files",
        ServeResult.stopped]
      = [ServeEvent.serve,
         ServeEvent.logPanic (ServeResult.failed "accept: too many open files")] ∧
    serveTask Listener.debug [ServeResult.failed "accept: too many open files",
        ServeResult.stopped]
      = [ServeEvent.serve,
         ServeEvent.logPanic (ServeResult.failed "accept: too many open files")] ∧
    serveCalls (serveTask Listener.json [ServeResult.failed "accept: too many open files",
        ServeResult.stopped]) = 1 ∧
    serveCalls (serveTask Listener.grpc [ServeResult.failed "accept: too many open files",
        ServeResult.stopped]) = 2 := by
  decide

theorem runGRPCServer_serve_failures (fails : List String) (rest : List ServeResult) :
    runGRPCServer.serve (fails.map ServeResult.failed ++ rest)
      = (fails.map (fun m => [ServeEvent.serve, ServeEvent.logError m])).flatten
        ++ runGRPCServer.serve rest := by
  induction fails with
  | nil => rfl
  | cons m ms ih => simp [runGRPCServer.serve, ih]

theorem runGRPCServer_serve_stopped (rs : List ServeResult)
    (h : ServeEvent.logStopped ∈ runGRPCServer.serve rs) :
    ServeResult.nil ∈ rs ∨ ServeResult.stopped ∈ rs := by
  induction rs with
  | nil => simp [runGRPCServer.serve] at h
  | cons r rest ih =>
    cases r with
    | nil => simp
    | stopped => simp
    | failed msg =>
      simp only [runGRPCServer.serve, List.mem_cons] at h
      rcases h with h | h | h
      · cases h
      · cases h
      · rcases ih h with h2 | h2
        · exact Or.inl (List.mem_cons_of_mem _ h2)
        · exact Or.inr (List.mem_cons_of_mem _ h2)

/-- C7 (amended): the serve task of the native RPC listener logs every failure of `Serve`
and calls `Serve` again, and it ends only when a call of `Serve` returns `nil` or
`ErrServerStopped`, that is when the server was stopped; the serve tasks of the HTTP
gateway and of the diagnostics listener call `ListenAndServe` once, log and panic on a
failure, and end normally only when that call returns `ErrServerClosed`. -/
theorem serveTask_on_failure (fails : List String) (rest : List ServeResult) :
    serveTask Listener.grpc (fails.map ServeResult.failed ++ rest)
      = (fails.map (fun m => [ServeEvent.serve, ServeEvent.logError m])).flatten
        ++ serveTask Listener.grpc rest ∧
    (ServeEvent.logStopped ∈ serveTask Listener.grpc rest →
      ServeResult.nil ∈ rest ∨ ServeResult.stopped ∈ rest) ∧
    (∀ msg : String,
      serveTask Listener.json (ServeResult.failed msg :: rest)
        = [ServeEvent.serve, ServeEvent.logPanic (ServeResult.failed msg)] ∧
      serveTask Listener.debug (ServeResult.failed msg :: rest)
        = [ServeEvent.serve, ServeEvent.logPanic (ServeResult.failed msg)]) ∧
    (ServeEvent.logStopped ∈ serveTask Listener.json rest →
      ∃ tail, rest = ServeResult.stopped :: tail) ∧
    (ServeEvent.logStopped ∈ serveTask Listener.debug rest →
      ∃ tail, rest = ServeResult.stopped :: tail) := by
  have hjson : ServeEvent.logStopped ∈ runJSONServer.serve rest →
      ∃ tail, rest = ServeResult.stopped :: tail := by
    intro h
    cases rest with
    | nil => simp [runJSONServer.serve] at h
    | cons r tail =>
      cases r with
      | nil => simp [runJSONServer.serve] at h
      | stopped => exact ⟨tail, rfl⟩
      | failed msg => simp [runJSONServer.serve] at h
  have hdebug : ServeEvent.logStopped ∈ runDebugServer.serve rest →
      ∃ tail, rest = ServeResult.stopped :: tail := by
    intro h
    cases rest with
    | nil => simp [runDebugServer.serve] at h
    | cons r tail =>
      cases r with
      | nil => simp [runDebugServer.serve] at h
      | stopped => exact ⟨tail, rfl⟩
      | failed msg => simp [runDebugServer.serve] at h
  exact ⟨runGRPCServer_serve_failures fails rest, runGRPCServer_serve_stopped rest,
    fun msg => ⟨rfl, rfl⟩, hjson, hdebug⟩

/-! ## Listeners: shutdown sequences -/

/-- C8 at its failing input, work in flight that outlasts the grace period: the gRPC
server is stopped by force and the JSON server is closed by force, no connection is left;
`runDebugServer` logs the failed `Shutdown` and returns without `server.Close()`, the
connections with work in flight still open. -/
theorem runDebugServer_shutdown_is_not_forced :
    forceClosed (listenerShutdown Listener.grpc (some 5000)) = true ∧
    (listenerShutdown Listener.grpc (some 5000)).connectionsOpen = false ∧
    forceClosed (listenerShutdown Listener.json (some 5000)) = true ∧
    (listenerShutdown Listener.json (some 5000)).connectionsOpen = false ∧
    listenerShutdown Listener.debug (some 5000)
      = StopResult.mk [StopEvent.shutdown, StopEvent.graceExpired,
          StopEvent.logShutdownError, StopEvent.cancel] true ∧
    forceClosed (listenerShutdown Listener.debug (some 5000)) = false := by
  decide

/-! ## The pruner loop -/

theorem prunerLoop_ticks {σ : Type} (sweep : Nat → σ → σ) (days n : Nat) (s : σ) :
    prunerLoop sweep days (List.replicate n Wake.tick) s = ((sweep days)^[n + 1] s, false) := by
  induction n generalizing s with
  | zero => rfl
  | succ n ih =>
    rw [List.replicate_succ]
    simp only [prunerLoop]
    rw [ih]
    simp only [Function.iterate_succ_apply]

theorem prunerLoop_ticks_done {σ : Type} (sweep : Nat → σ → σ) (days n : Nat)
    (rest : List Wake) (s : σ) :
    prunerLoop sweep days (List.replicate n Wake.tick ++ Wake.done :: rest) s
      = ((sweep days)^[n + 1] s, true) := by
  induction n generalizing s with
  | zero => rfl
  | succ n ih =>
    rw [List.replicate_succ, List.cons_append]
    simp only [prunerLoop]
    rw [ih]
    simp only [Function.iterate_succ_apply]

theorem listingHorizons_append (a b : List Event) :
    listingHorizons (a ++ b) = listingHorizons a ++ listingHorizons b := by
  induction a with
  | nil => rfl
  | cons e rest ih =>
    cases e <;> simp [listingHorizons, ih]

theorem listingHorizons_dropLoop (execErr : Partition → Bool) (ps : List Partition) (db : DB) :
    listingHorizons (dropLoop execErr ps db).2 = [] := by
  induction ps generalizing db with
  | nil => rfl
  | cons p ps ih => simp [dropLoop, listingHorizons, ih]

theorem listingHorizons_DropOldPartition (out : DBOutcome) (db : DB) (now : Date)
    (days : Nat) : listingHorizons (DropOldPartition out db now days).2 = [days] := by
  unfold DropOldPartition Select
  by_cases h : out.selectErr = true
  · simp [h, listingHorizons]
  · simp [h, listingHorizons, listingHorizons_dropLoop]

theorem storeSweep_iterate (outs : Nat → DBOutcome) (clock : Nat → Date) (days n : Nat)
    (s : PrunerState) :
    ((storeSweep outs clock days)^[n] s).sweeps = s.sweeps + n ∧
    listingHorizons ((storeSweep outs clock days)^[n] s).trace
      = listingHorizons s.trace ++ List.replicate n days := by
  induction n generalizing s with
  | zero => simp
  | succ n ih =>
    rw [Function.iterate_succ_apply]
    obtain ⟨h1, h2⟩ := ih (storeSweep outs clock days s)
    rw [h1, h2]
    refine ⟨?_, ?_⟩
    · simp only [storeSweep]; omega
    · simp only [storeSweep, listingHorizons_append, listingHorizons_DropOldPartition,
        List.replicate_succ, List.append_assoc, List.singleton_append]

/-- C9: the pruner loop sweeps once before it waits on anything, once more per tick it
receives, and returns without a further sweep when it observes the cancellation: after
`n` ticks, blocked in the `select` or returned on the cancellation, it has applied the
sweep of the configured horizon exactly `n + 1` times; run on the store, that is `n + 1`
calls of `DropOldPartition`, each with the configured horizon. -/
theorem prunerLoop_sweeps_once_per_tick {σ : Type} (sweep : Nat → σ → σ) (days n : Nat)
    (s : σ) :
    prunerLoop sweep days [] s = (sweep days s, false) ∧
    prunerLoop sweep days (List.replicate n Wake.tick) s = ((sweep days)^[n + 1] s, false) ∧
    (∀ rest : List Wake,
      prunerLoop sweep days (List.replicate n Wake.tick ++ Wake.done :: rest) s
        = ((sweep days)^[n + 1] s, true)) ∧
    (∀ (outs : Nat → DBOutcome) (clock : Nat → Date) (db : DB) (rest : List Wake),
      (prunerLoop (storeSweep outs clock) days
          (List.replicate n Wake.tick ++ Wake.done :: rest)
          (PrunerState.mk db [] 0)).1.sweeps = n + 1 ∧
      listingHorizons (prunerLoop (storeSweep outs clock) days
          (List.replicate n Wake.tick ++ Wake.done :: rest)
          (PrunerState.mk db [] 0)).1.trace = List.replicate (n + 1) days) := by
  refine ⟨rfl, prunerLoop_ticks sweep days n s,
    fun rest => prunerLoop_ticks_done sweep days n rest s, ?_⟩
  intro outs clock db rest
  rw [prunerLoop_ticks_done]
  have h := storeSweep_iterate outs clock days (n + 1) (PrunerState.mk db [] 0)
  simpa [listingHorizons] using h

end QanApi
